import Mathlib

/-!
# Verification of the `fluids` SPH simulation core

A shallow embedding, in Lean 4, of the Go sources of the `zzstoatzz/fluids`
repository (the mature variant: `spatial/grid.go`, `spatial/boundaries.go`,
the radius-parameterised kernel module, the force-assembly pass, the
semi-implicit integrator, the parallel-map substrate and the aggregate
`FluidSim`/`Step` driver), together with proofs and refutations of the
testable properties stated in the design document.

Modelling conventions:
* Go `float64` arithmetic is embedded as real-number (`ℝ`) arithmetic; the
  properties below are stated exactly, in real arithmetic.  A separate
  section models IEEE-754 special values (±Inf / NaN) over `ℚ` where a
  property is specifically about non-finite values.
* Go `int`/`int64` arithmetic is embedded as `ℤ` with explicit
  two's-complement wraparound (`% 2^64`) where overflow matters.
* Randomness (`rand.Float64()` draws) is modelled by explicit streams of
  real numbers in `[0, 1)` passed as arguments.
* Concurrency: every parallel pass of the source writes only to
  index-disjoint slots or task-local accumulators merged by a sequential
  reduction, so each pass is embedded as its deterministic sequential
  semantics over the particle list.
-/

namespace Fluids

/-! ## Go 64-bit integer model and the packed cell key (`spatial/grid.go`) -/

/-- Two's-complement wraparound of an integer into the signed 64-bit range
`[-2^63, 2^63)`, modelling Go `int64` (and 64-bit `int`) arithmetic. -/
def wrap64 (z : ℤ) : ℤ := (z + 2 ^ 63) % 2 ^ 64 - 2 ^ 63

/-- `MakeCellIndex` from `spatial/grid.go`:
`CellIndex((int64(cellX) << 32) | int64(cellY&0xFFFFFFFF))`.
On two's complement, `cellY & 0xFFFFFFFF` is `cellY % 2^32` (a non-negative
value below `2^32`), `<< 32` is multiplication by `2^32` wrapped to 64 bits
(low 32 bits zero), and the `|` of the two operands — whose set bits are
disjoint (high 32 bits vs low 32 bits) — is addition. -/
def MakeCellIndex (cellX cellY : ℤ) : ℤ :=
  wrap64 (wrap64 (cellX * 2 ^ 32) + cellY % 2 ^ 32)

/-- First component of `GetCoordinates`: `int(int64(ci) >> 32)`, an arithmetic
(sign-propagating) right shift by 32, i.e. floor division by `2^32`
(`Int./` is Euclidean division, which agrees with floor division for a
positive divisor). -/
def getCoordX (ci : ℤ) : ℤ := ci / 2 ^ 32

/-- Second component of `GetCoordinates`: `int(int64(ci) & 0xFFFFFFFF)`, the
low 32 bits of the key as a non-negative value.  The source performs no sign
extension here. -/
def getCoordY (ci : ℤ) : ℤ := ci % 2 ^ 32

/-- `GetCoordinates` from `spatial/grid.go`. -/
def GetCoordinates (ci : ℤ) : ℤ × ℤ := (getCoordX ci, getCoordY ci)

theorem wrap64_eq_self {z : ℤ} (h₁ : -(2 ^ 63) ≤ z) (h₂ : z < 2 ^ 63) :
    wrap64 z = z := by
  unfold wrap64
  rw [Int.emod_eq_of_lt (by omega) (by omega)]
  omega

theorem wrap64_lb (z : ℤ) : -(2 ^ 63) ≤ wrap64 z := by
  unfold wrap64
  have := @Int.emod_nonneg (z + 2 ^ 63) (2 ^ 64) (by norm_num)
  omega

theorem wrap64_ub (z : ℤ) : wrap64 z < 2 ^ 63 := by
  unfold wrap64
  have := @Int.emod_lt_of_pos (z + 2 ^ 63) (2 ^ 64) (by norm_num)
  omega

theorem wrap64_emod (z : ℤ) : wrap64 z % 2 ^ 64 = z % 2 ^ 64 := by
  unfold wrap64
  conv_rhs => rw [← Int.emod_emod_of_dvd z (by norm_num : (2 ^ 64 : ℤ) ∣ 2 ^ 64)]
  omega

/-- A packed cell key is the 64-bit wrap of `(x mod 2^32) * 2^32 + (y mod 2^32)`:
only the low 32 bits of each coordinate enter the key. -/
theorem makeCellIndex_eq_wrap (x y : ℤ) :
    MakeCellIndex x y = wrap64 (x % 2 ^ 32 * 2 ^ 32 + y % 2 ^ 32) := by
  unfold MakeCellIndex wrap64
  have h := wrap64_emod (x * 2 ^ 32)
  unfold wrap64 at h
  omega

theorem wrap64_inj {u v : ℤ} (hu₁ : 0 ≤ u) (hu₂ : u < 2 ^ 64)
    (hv₁ : 0 ≤ v) (hv₂ : v < 2 ^ 64) (h : wrap64 u = wrap64 v) : u = v := by
  have hu := wrap64_emod u
  have hv := wrap64_emod v
  rw [h] at hu
  omega

/-- Two packed keys agree exactly when both coordinates agree modulo `2^32`. -/
theorem makeCellIndex_eq_iff (x y x' y' : ℤ) :
    MakeCellIndex x y = MakeCellIndex x' y' ↔
      x % 2 ^ 32 = x' % 2 ^ 32 ∧ y % 2 ^ 32 = y' % 2 ^ 32 := by
  rw [makeCellIndex_eq_wrap, makeCellIndex_eq_wrap]
  constructor
  · intro h
    have h1 : (0:ℤ) ≤ x % 2 ^ 32 := Int.emod_nonneg x (by norm_num)
    have h2 : x % 2 ^ 32 < 2 ^ 32 := Int.emod_lt_of_pos x (by norm_num)
    have h3 : (0:ℤ) ≤ y % 2 ^ 32 := Int.emod_nonneg y (by norm_num)
    have h4 : y % 2 ^ 32 < 2 ^ 32 := Int.emod_lt_of_pos y (by norm_num)
    have h5 : (0:ℤ) ≤ x' % 2 ^ 32 := Int.emod_nonneg x' (by norm_num)
    have h6 : x' % 2 ^ 32 < 2 ^ 32 := Int.emod_lt_of_pos x' (by norm_num)
    have h7 : (0:ℤ) ≤ y' % 2 ^ 32 := Int.emod_nonneg y' (by norm_num)
    have h8 : y' % 2 ^ 32 < 2 ^ 32 := Int.emod_lt_of_pos y' (by norm_num)
    have := @wrap64_inj (x % 2 ^ 32 * 2 ^ 32 + y % 2 ^ 32)
      (x' % 2 ^ 32 * 2 ^ 32 + y' % 2 ^ 32)
      (by nlinarith) (by nlinarith) (by nlinarith) (by nlinarith) h
    omega
  · rintro ⟨h1, h2⟩
    rw [h1, h2]

/-- The low 32 bits of a packed key are the y coordinate modulo `2^32`. -/
theorem getCoordY_makeCellIndex (x y : ℤ) :
    getCoordY (MakeCellIndex x y) = y % 2 ^ 32 := by
  rw [makeCellIndex_eq_wrap]
  unfold getCoordY wrap64
  omega

/-- The high 32 bits of a packed key recover the x coordinate modulo `2^32`. -/
theorem getCoordX_makeCellIndex_emod (x y : ℤ) :
    getCoordX (MakeCellIndex x y) % 2 ^ 32 = x % 2 ^ 32 := by
  rw [makeCellIndex_eq_wrap]
  unfold getCoordX wrap64
  omega

/-- Rebuilding a neighbour key from the (partially sign-corrupted) coordinates
returned by `GetCoordinates` yields the same key as building it from the true
coordinates: keys only depend on the coordinates modulo `2^32`. -/
theorem makeCellIndex_getCoord_offset (x y dx dy : ℤ) :
    MakeCellIndex (getCoordX (MakeCellIndex x y) + dx)
        (getCoordY (MakeCellIndex x y) + dy) =
      MakeCellIndex (x + dx) (y + dy) := by
  rw [makeCellIndex_eq_iff]
  have hX := getCoordX_makeCellIndex_emod x y
  have hY := getCoordY_makeCellIndex x y
  constructor
  · omega
  · rw [hY]; omega

/-- Within one 3×3 neighbourhood scan the nine generated keys are pairwise
distinct: equal keys force equal offsets. -/
theorem makeCellIndex_offset_inj {cx cy dx dy dx' dy' : ℤ}
    (h₁ : |dx| ≤ 1) (h₂ : |dy| ≤ 1) (h₃ : |dx'| ≤ 1) (h₄ : |dy'| ≤ 1)
    (h : MakeCellIndex (cx + dx) (cy + dy) = MakeCellIndex (cx + dx') (cy + dy')) :
    dx = dx' ∧ dy = dy' := by
  rw [makeCellIndex_eq_iff] at h
  rcases h with ⟨hx, hy⟩
  rw [abs_le] at h₁ h₂ h₃ h₄
  constructor <;> omega

/-- C2 (counterexample): the packed-key round trip is not sign-preserving in
the y coordinate.  For `(cellX, cellY) = (0, -1)` the key unpacks to
`(0, 4294967295)`, not `(0, -1)`. -/
theorem C2_getCoordinates_not_sign_preserving :
    GetCoordinates (MakeCellIndex 0 (-1)) = (0, 4294967295) ∧
      ((4294967295 : ℤ) ≠ (-1 : ℤ)) := by
  constructor
  · decide
  · decide

/-- C2 (amended): the round trip on a key built from signed 32-bit coordinates
recovers the x coordinate exactly (sign included), while the y coordinate is
recovered as `cellY % 2^32`, a non-negative value — equal to `cellY` exactly
when `cellY ≥ 0`, and to `cellY + 2^32` for negative `cellY`. -/
theorem C2_getCoordinates_makeCellIndex (x y : ℤ)
    (hx₁ : -(2 ^ 31) ≤ x) (hx₂ : x < 2 ^ 31) :
    GetCoordinates (MakeCellIndex x y) = (x, y % 2 ^ 32) := by
  have hr₁ : (0 : ℤ) ≤ y % 2 ^ 32 := Int.emod_nonneg y (by norm_num)
  have hr₂ : y % 2 ^ 32 < 2 ^ 32 := Int.emod_lt_of_pos y (by norm_num)
  have hinner : wrap64 (x * 2 ^ 32) = x * 2 ^ 32 :=
    wrap64_eq_self (by nlinarith) (by nlinarith)
  have houter : wrap64 (x * 2 ^ 32 + y % 2 ^ 32) = x * 2 ^ 32 + y % 2 ^ 32 :=
    wrap64_eq_self (by nlinarith) (by nlinarith)
  unfold MakeCellIndex GetCoordinates getCoordX getCoordY
  rw [hinner, houter]
  refine Prod.ext ?_ ?_
  · rw [add_comm, Int.add_mul_ediv_right _ _ (by norm_num : (2 ^ 32 : ℤ) ≠ 0),
      Int.ediv_eq_zero_of_lt hr₁ hr₂]
    ring
  · rw [add_comm, mul_comm, Int.add_mul_emod_self_left,
      Int.emod_emod_of_dvd _ (dvd_refl _)]

/-- C2 (witness): the amended round trip evaluated at `(cellX, cellY) = (-5, -7)`:
the key unpacks to `(-5, 2^32 - 7)`. -/
theorem C2_getCoordinates_makeCellIndex_witness :
    GetCoordinates (MakeCellIndex (-5) (-7)) = (-5, 4294967289) := by
  have h := C2_getCoordinates_makeCellIndex (-5) (-7) (by norm_num) (by norm_num)
  rw [h]
  norm_num

/-! ## Particles (`core` package) and the spatial grid (`spatial/grid.go`) -/

/-- `core.Particle` (mature variant): position, velocity, density, pressure,
accumulated force, cached cell coordinates, neighbour indices, mass and visual
radius.  The legacy `Neighbors []Particle` field is unused by the mature code
and omitted. -/
structure Particle where
  x : ℝ := 0
  y : ℝ := 0
  vx : ℝ := 0
  vy : ℝ := 0
  density : ℝ := 0
  pressure : ℝ := 0
  fx : ℝ := 0
  fy : ℝ := 0
  cellX : ℤ := 0
  cellY : ℤ := 0
  neighborIndices : List ℕ := []
  mass : ℝ := 0
  radius : ℝ := 0

instance : Inhabited Particle := ⟨{}⟩

/-- Go's conversion `int(f)` of a `float64` to an integer truncates toward
zero (it is the floor for non-negative values and the ceiling for negative
ones). -/
noncomputable def goTrunc (x : ℝ) : ℤ := if 0 ≤ x then ⌊x⌋ else ⌈x⌉

/-- `i := int(p.X / g.CellSize)` in `Grid.Update`. -/
noncomputable def posCellX (p : Particle) (cellSize : ℝ) : ℤ :=
  goTrunc (p.x / cellSize)

/-- `j := int(p.Y / g.CellSize)` in `Grid.Update`. -/
noncomputable def posCellY (p : Particle) (cellSize : ℝ) : ℤ :=
  goTrunc (p.y / cellSize)

/-- The packed key of the cell holding a particle, as computed by
`Grid.Update`. -/
noncomputable def posCellKey (p : Particle) (cellSize : ℝ) : ℤ :=
  MakeCellIndex (posCellX p cellSize) (posCellY p cellSize)

/-- The grid's cell map `map[CellIndex][]int`, modelled as an association
list in first-insertion key order.  (The Go map additionally keeps stale keys
whose slices were reset to length 0; an absent key and a key holding an empty
slice are observationally identical for lookups.) -/
abbrev CellMap := List (ℤ × List ℕ)

/-- `g.CellMap[cellIdx] = append(g.CellMap[cellIdx], idx)`: append `idx` to
the list at key `k`, creating the entry if missing. -/
def cellInsert (m : CellMap) (k : ℤ) (idx : ℕ) : CellMap :=
  match m with
  | [] => [(k, [idx])]
  | (k', l) :: rest =>
      if k' = k then (k', l ++ [idx]) :: rest else (k', l) :: cellInsert rest k idx

/-- Map lookup, defaulting to the empty list for an absent key (matching the
`indices, found := g.CellMap[cellIdx]; if found { … }` pattern, where an
absent key contributes nothing). -/
def cellLookup (m : CellMap) (k : ℤ) : List ℕ :=
  match m with
  | [] => []
  | (k', l) :: rest => if k' = k then l else cellLookup rest k

/-- The cell map produced by `Grid.Update(particles)`: every particle index is
inserted, in index order, under the key of its current position's cell. -/
noncomputable def buildCellMap (ps : List Particle) (cellSize : ℝ) : CellMap :=
  ps.enum.foldl (fun m ip => cellInsert m (posCellKey ip.2 cellSize) ip.1) []

/-- The write-back half of `Grid.Update`: `p.CellX = i; p.CellY = j` for every
particle. -/
noncomputable def assignCells (ps : List Particle) (cellSize : ℝ) : List Particle :=
  ps.map fun p => { p with cellX := posCellX p cellSize, cellY := posCellY p cellSize }

theorem cellLookup_cellInsert (m : CellMap) (k : ℤ) (idx : ℕ) (k' : ℤ) :
    cellLookup (cellInsert m k idx) k' =
      if k' = k then cellLookup m k ++ [idx] else cellLookup m k' := by
  induction m with
  | nil =>
      simp only [cellInsert, cellLookup]
      by_cases h : k = k'
      · subst h; simp
      · rw [if_neg h, if_neg fun hh => h hh.symm]
  | cons hd tl ih =>
      obtain ⟨k₀, l₀⟩ := hd
      simp only [cellInsert]
      by_cases h₀ : k₀ = k
      · subst h₀
        simp only [if_pos rfl, cellLookup]
        by_cases h : k₀ = k'
        · subst h; simp
        · rw [if_neg h, if_neg fun hh => h hh.symm, if_neg h]
      · rw [if_neg h₀]
        simp only [cellLookup]
        by_cases h : k₀ = k'
        · subst h
          rw [if_pos rfl, if_neg h₀, if_pos rfl]
        · rw [if_neg h, ih, if_neg h₀, if_neg h]

theorem cellLookup_foldl_insert (l : List (ℕ × Particle)) (m : CellMap)
    (cellSize : ℝ) (k : ℤ) :
    cellLookup (l.foldl (fun m ip => cellInsert m (posCellKey ip.2 cellSize) ip.1) m) k =
      cellLookup m k ++
        (l.filter (fun ip => posCellKey ip.2 cellSize = k)).map Prod.fst := by
  induction l generalizing m with
  | nil => simp
  | cons hd tl ih =>
      rw [List.foldl_cons, ih, cellLookup_cellInsert]
      by_cases h : posCellKey hd.2 cellSize = k
      · simp [h, List.filter_cons]
      · have h' : ¬ (k = posCellKey hd.2 cellSize) := fun hk => h hk.symm
        simp [h, h', List.filter_cons]

/-- Characterisation of the rebuilt cell map: the list at key `k` is exactly
the ascending list of indices of particles whose current cell key is `k`. -/
theorem cellLookup_buildCellMap (ps : List Particle) (cellSize : ℝ) (k : ℤ) :
    cellLookup (buildCellMap ps cellSize) k =
      (ps.enum.filter (fun ip => posCellKey ip.2 cellSize = k)).map Prod.fst := by
  unfold buildCellMap
  rw [cellLookup_foldl_insert]
  simp [cellLookup]

theorem mem_cellLookup_buildCellMap (ps : List Particle) (cellSize : ℝ)
    (k : ℤ) (i : ℕ) :
    i ∈ cellLookup (buildCellMap ps cellSize) k ↔
      ∃ h : i < ps.length, posCellKey (ps.get ⟨i, h⟩) cellSize = k := by
  rw [cellLookup_buildCellMap]
  simp only [List.mem_map, List.mem_filter]
  constructor
  · rintro ⟨⟨j, p⟩, ⟨hmem, hkey⟩, rfl⟩
    rw [List.mk_mem_enum_iff_getElem?] at hmem
    have hlen : j < ps.length := by
      by_contra hge
      rw [List.getElem?_eq_none (by omega)] at hmem
      exact Option.noConfusion hmem
    refine ⟨hlen, ?_⟩
    rw [List.getElem?_eq_getElem hlen] at hmem
    have : ps[j] = p := Option.some_injective _ hmem
    simpa [List.get_eq_getElem, this] using of_decide_eq_true hkey
  · rintro ⟨h, hkey⟩
    refine ⟨(i, ps.get ⟨i, h⟩), ⟨?_, by simpa using hkey⟩, rfl⟩
    rw [List.mk_mem_enum_iff_getElem?, List.getElem?_eq_getElem h]
    simp

theorem nodup_cellLookup_buildCellMap (ps : List Particle) (cellSize : ℝ)
    (k : ℤ) : (cellLookup (buildCellMap ps cellSize) k).Nodup := by
  rw [cellLookup_buildCellMap]
  have h₁ : (ps.enum.map Prod.fst).Nodup := by
    rw [List.enum_map_fst]
    exact List.nodup_range _
  exact h₁.sublist (List.Sublist.map _ (List.filter_sublist _))

/-- C3 (counterexample): the cell key is computed with Go's `int(...)`
conversion, which truncates toward zero — not with `floor`.  A particle at
`x = -2` with cell size `4` is filed under cell `(0, 0)`, not under the floor
cell `(-1, 0)`: its index is absent from the floor cell's list. -/
theorem C3_floor_key_counterexample :
    ¬ (0 ∈ cellLookup (buildCellMap [{ x := -2, y := 2 : Particle }] 4)
          (MakeCellIndex ⌊(-2 : ℝ) / 4⌋ ⌊(2 : ℝ) / 4⌋)) ∧
      0 ∈ cellLookup (buildCellMap [{ x := -2, y := 2 : Particle }] 4)
          (MakeCellIndex 0 0) ∧
      (⌊(-2 : ℝ) / 4⌋ = -1) := by
  have hcx : posCellX ({ x := -2, y := 2 : Particle }) 4 = 0 := by
    unfold posCellX goTrunc
    norm_num
  have hcy : posCellY ({ x := -2, y := 2 : Particle }) 4 = 0 := by
    unfold posCellY goTrunc
    norm_num
  have hkey : posCellKey ({ x := -2, y := 2 : Particle }) 4 = MakeCellIndex 0 0 := by
    unfold posCellKey
    rw [hcx, hcy]
  have hmap : buildCellMap [{ x := -2, y := 2 : Particle }] 4 =
      [(MakeCellIndex 0 0, [0])] := by
    unfold buildCellMap
    rw [show ([{ x := -2, y := 2 : Particle }]).enum =
      [(0, { x := -2, y := 2 : Particle })] from rfl]
    rw [List.foldl_cons, List.foldl_nil, hkey]
    rfl
  have hfloorx : ⌊(-2 : ℝ) / 4⌋ = -1 := by norm_num
  have hfloory : ⌊(2 : ℝ) / 4⌋ = 0 := by norm_num
  have hne : MakeCellIndex 0 0 ≠ MakeCellIndex (-1) 0 := by decide
  refine ⟨?_, ?_, hfloorx⟩
  · rw [hmap, hfloorx, hfloory]
    simp [cellLookup, hne]
  · rw [hmap]
    simp [cellLookup]

/-- C3 (amended): after `Grid.Update`, every particle index belongs to exactly
one cell list, namely the one keyed by the cell computed from its current
position with Go's truncation toward zero, `int(position / cellSize)` — equal
to `floor(position / cellSize)` for non-negative coordinates but not for
negative ones — it appears exactly once in that list, and that cell's
coordinates are written back onto the particle's `CellX`/`CellY` fields. -/
theorem C3_grid_update_partition (ps : List Particle) (cellSize : ℝ) (i : ℕ)
    (hi : i < ps.length) :
    (∀ k : ℤ, i ∈ cellLookup (buildCellMap ps cellSize) k ↔
        k = posCellKey (ps.get ⟨i, hi⟩) cellSize) ∧
    (cellLookup (buildCellMap ps cellSize)
        (posCellKey (ps.get ⟨i, hi⟩) cellSize)).count i = 1 ∧
    (assignCells ps cellSize)[i]?.map Particle.cellX =
      some (posCellX (ps.get ⟨i, hi⟩) cellSize) ∧
    (assignCells ps cellSize)[i]?.map Particle.cellY =
      some (posCellY (ps.get ⟨i, hi⟩) cellSize) := by
  have hmem : ∀ k : ℤ, i ∈ cellLookup (buildCellMap ps cellSize) k ↔
      k = posCellKey (ps.get ⟨i, hi⟩) cellSize := by
    intro k
    rw [mem_cellLookup_buildCellMap]
    constructor
    · rintro ⟨h, hk⟩
      exact hk.symm
    · rintro rfl
      exact ⟨hi, rfl⟩
  refine ⟨hmem, ?_, ?_, ?_⟩
  · exact List.count_eq_one_of_mem
      (nodup_cellLookup_buildCellMap ps cellSize _)
      ((hmem _).mpr rfl)
  · unfold assignCells
    rw [List.getElem?_map, List.getElem?_eq_getElem hi]
    simp [posCellX, List.get_eq_getElem]
  · unfold assignCells
    rw [List.getElem?_map, List.getElem?_eq_getElem hi]
    simp [posCellY, List.get_eq_getElem]

/-- C3 (witness): the amended theorem applied to the one-particle list with
position `(1, 2)` and cell size `4`: index 0 lands in the list of cell
`(0, 0)` and appears there exactly once. -/
theorem C3_grid_update_partition_witness :
    0 ∈ cellLookup (buildCellMap [{ x := 1, y := 2 : Particle }] 4)
        (MakeCellIndex 0 0) ∧
      (cellLookup (buildCellMap [{ x := 1, y := 2 : Particle }] 4)
        (MakeCellIndex 0 0)).count 0 = 1 := by
  have h := C3_grid_update_partition [{ x := 1, y := 2 : Particle }] 4 0 (by simp)
  have hcx : posCellX ({ x := 1, y := 2 : Particle }) 4 = 0 := by
    unfold posCellX goTrunc
    norm_num
  have hcy : posCellY ({ x := 1, y := 2 : Particle }) 4 = 0 := by
    unfold posCellY goTrunc
    norm_num
  have hkey : posCellKey (([{ x := 1, y := 2 : Particle }]).get ⟨0, by simp⟩) 4 =
      MakeCellIndex 0 0 := by
    unfold posCellKey
    rw [show (([{ x := 1, y := 2 : Particle }]).get ⟨0, by simp⟩) =
      ({ x := 1, y := 2 : Particle }) from rfl, hcx, hcy]
  refine ⟨(h.1 (MakeCellIndex 0 0)).mpr hkey.symm, ?_⟩
  have hcount := h.2.1
  rw [hkey] at hcount
  exact hcount

/-! ## Kernel module (radius-parameterised variant of `spatial/kernel.go`) -/

/-- `KERNEL_EPSILON = 1e-6`, the epsilon for float comparisons in kernel
calculations.  (The decimal constant is exactly representable here; the Go
`float64` value differs from `10^-6` by less than one part in `10^16`, which
none of the comparisons below can distinguish for the inputs considered.) -/
noncomputable def KERNEL_EPSILON : ℝ := 1e-6

/-- `SmoothingKernel(distance, h float64)`: zero outside the support radius,
otherwise `(h-d)^2` normalised by the custom volume `(π + h^4)/6` (with the
source's defensive zero-volume guard).  `math.Pow(h, 4)` is the exact fourth
power. -/
noncomputable def SmoothingKernel (distance h : ℝ) : ℝ :=
  if distance ≥ h then 0
  else
    let smoothingVolume := (Real.pi + h ^ 4) / 6
    if smoothingVolume = 0 then 0
    else (h - distance) * (h - distance) / smoothingVolume

/-- `originalSmoothingScale = 12 / (math.Pow(math.Pi, 4) * math.Pi)`. -/
noncomputable def originalSmoothingScale : ℝ := 12 / (Real.pi ^ 4 * Real.pi)

/-- `SmoothingKernelDerivative(distance, h float64)`: zero outside the
support, otherwise the Lague-like linear form `(distance - h) * scale`. -/
noncomputable def SmoothingKernelDerivative (distance h : ℝ) : ℝ :=
  if distance ≥ h then 0 else (distance - h) * originalSmoothingScale

/-- The custom normalisation volume `(π + h^4)/6` is positive for every `h`,
so the source's zero-volume guard never fires in real arithmetic. -/
theorem smoothingVolume_pos (h : ℝ) : 0 < (Real.pi + h ^ 4) / 6 := by
  have hp := Real.pi_pos
  positivity

/-- C4: for every radius `h > 0`, both kernel functions vanish identically at
and beyond the support radius; inside the support the kernel is strictly
positive and strictly decreasing in the distance. -/
theorem C4_kernel_support (h : ℝ) (hh : 0 < h) :
    (∀ d, h ≤ d → SmoothingKernel d h = 0 ∧ SmoothingKernelDerivative d h = 0) ∧
    (∀ d, 0 ≤ d → d < h → 0 < SmoothingKernel d h) ∧
    (∀ d₁ d₂, 0 ≤ d₁ → d₁ < d₂ → d₂ < h →
      SmoothingKernel d₂ h < SmoothingKernel d₁ h) := by
  have hvol := smoothingVolume_pos h
  refine ⟨?_, ?_, ?_⟩
  · intro d hd
    constructor
    · unfold SmoothingKernel
      rw [if_pos hd]
    · unfold SmoothingKernelDerivative
      rw [if_pos hd]
  · intro d hd₀ hdh
    unfold SmoothingKernel
    rw [if_neg (not_le.mpr hdh), if_neg (ne_of_gt hvol)]
    have : 0 < h - d := by linarith
    positivity
  · intro d₁ d₂ h₀ h₁₂ h₂h
    unfold SmoothingKernel
    rw [if_neg (not_le.mpr h₂h), if_neg (not_le.mpr (by linarith)),
      if_neg (ne_of_gt hvol), if_neg (ne_of_gt hvol)]
    rw [div_lt_div_iff_of_pos_right hvol]
    nlinarith

/-- C4 (witness): the support and monotonicity facts evaluated at `h = 4`
with distances `5` (outside) and `1 < 2` (inside). -/
theorem C4_kernel_support_witness :
    SmoothingKernel 5 4 = 0 ∧ SmoothingKernelDerivative 5 4 = 0 ∧
      0 < SmoothingKernel 1 4 ∧ SmoothingKernel 2 4 < SmoothingKernel 1 4 :=
  ⟨((C4_kernel_support 4 (by norm_num)).1 5 (by norm_num)).1,
   ((C4_kernel_support 4 (by norm_num)).1 5 (by norm_num)).2,
   (C4_kernel_support 4 (by norm_num)).2.1 1 (by norm_num) (by norm_num),
   (C4_kernel_support 4 (by norm_num)).2.2 1 2 (by norm_num) (by norm_num)
     (by norm_num)⟩

/-! ## Standard force assembly (pressure / viscosity / repulsion) -/

/-- `CalculatePressureForce(idx, pressureMultiplier)`: fold over the
particle's neighbour list accumulating the smoothed directional pressure
term; neighbours outside the window `KERNEL_EPSILON ≤ distSq < h²` are
skipped. -/
noncomputable def CalculatePressureForce (ps : List Particle) (h sf : ℝ)
    (idx : ℕ) (pm : ℝ) : ℝ × ℝ :=
  let p := ps.getD idx default
  let hSq := h * h
  p.neighborIndices.foldl
    (fun force j =>
      let nb := ps.getD j default
      let dx := nb.x - p.x
      let dy := nb.y - p.y
      let distSq := dx * dx + dy * dy
      if distSq < KERNEL_EPSILON ∨ distSq ≥ hSq then force
      else
        let dist := Real.sqrt distSq
        let smoothedDist := max dist (sf * h)
        let invDist := 1 / smoothedDist
        let dirX := dx * invDist
        let dirY := dy * invDist
        let avgPressure := (p.pressure + nb.pressure) * 0.5
        let forceMagnitude :=
          avgPressure * SmoothingKernelDerivative smoothedDist h * pm
        (force.1 + dirX * forceMagnitude, force.2 + dirY * forceMagnitude))
    (0, 0)

/-- `CalculateViscosityForce(idx)`: velocity-difference terms scaled by the
kernel derivative at the smoothed distance times the viscosity coefficient. -/
noncomputable def CalculateViscosityForce (ps : List Particle) (h sf nu : ℝ)
    (idx : ℕ) : ℝ × ℝ :=
  let p := ps.getD idx default
  let hSq := h * h
  p.neighborIndices.foldl
    (fun force j =>
      let nb := ps.getD j default
      let dvx := nb.vx - p.vx
      let dvy := nb.vy - p.vy
      let dx := nb.x - p.x
      let dy := nb.y - p.y
      let distSq := dx * dx + dy * dy
      if distSq < KERNEL_EPSILON ∨ distSq ≥ hSq then force
      else
        let dist := Real.sqrt distSq
        let smoothedDist := max dist (sf * h)
        let viscosityFactor := SmoothingKernelDerivative smoothedDist h * nu
        (force.1 + dvx * viscosityFactor, force.2 + dvy * viscosityFactor))
    (0, 0)

/-- `CalculateRepulsionForce(idx, pressureMultiplier)`: density-gradient
repulsion, only away from denser neighbours, with the non-linear
`densityDiff^1.5` falloff (`math.Pow` is `Real.rpow` here). -/
noncomputable def CalculateRepulsionForce (ps : List Particle) (h : ℝ)
    (idx : ℕ) (pm : ℝ) : ℝ × ℝ :=
  let p := ps.getD idx default
  let hSq := h * h
  p.neighborIndices.foldl
    (fun force j =>
      let nb := ps.getD j default
      let densityDiff := nb.density - p.density
      if densityDiff ≤ 0 then force
      else
        let dx := p.x - nb.x
        let dy := p.y - nb.y
        let distSq := dx * dx + dy * dy
        if distSq < KERNEL_EPSILON ∨ distSq ≥ hSq then force
        else
          let dist := Real.sqrt distSq
          let dirX := dx / dist
          let dirY := dy / dist
          let repulsionStrength := densityDiff ^ (1.5 : ℝ) * 0.1 * pm
          (force.1 + dirX * repulsionStrength,
            force.2 + dirY * repulsionStrength))
    (0, 0)

/-- Accumulating guarded pair terms by a left fold is summing the unskipped
terms. -/
theorem foldl_guard_sum (l : List ℕ) (cond : ℕ → Prop) [DecidablePred cond]
    (t : ℕ → ℝ × ℝ) (a : ℝ × ℝ) :
    l.foldl (fun acc j => if cond j then acc
        else (acc.1 + (t j).1, acc.2 + (t j).2)) a =
      a + (l.map fun j => if cond j then ((0 : ℝ), (0 : ℝ)) else t j).sum := by
  induction l generalizing a with
  | nil => simp
  | cons x xs ih =>
      rw [List.foldl_cons, ih, List.map_cons, List.sum_cons]
      by_cases hx : cond x
      · rw [if_pos hx, if_pos hx]
        rw [show ((0 : ℝ), (0 : ℝ)) = (0 : ℝ × ℝ) from rfl, zero_add]
      · rw [if_neg hx, if_neg hx,
          show (a.1 + (t x).1, a.2 + (t x).2) = a + t x from rfl, add_assoc]

/-- The pressure force exactly as the specification words it: the sum over
neighbours within the distance window of the unit direction toward the
neighbour (computed with the smoothed distance) scaled by
`avg(pressureᵢ, pressureⱼ) · kernelDerivative(smoothedDist, h) · pm`;
pairs failing either distance bound contribute nothing. -/
noncomputable def pressureForceSpec (ps : List Particle) (h sf : ℝ)
    (idx : ℕ) (pm : ℝ) : ℝ × ℝ :=
  let p := ps.getD idx default
  (p.neighborIndices.map fun j =>
    let nb := ps.getD j default
    let dx := nb.x - p.x
    let dy := nb.y - p.y
    let distSq := dx * dx + dy * dy
    if KERNEL_EPSILON ≤ distSq ∧ distSq < h * h then
      let smoothedDist := max (Real.sqrt distSq) (sf * h)
      let magnitude := (p.pressure + nb.pressure) / 2 *
        SmoothingKernelDerivative smoothedDist h * pm
      (dx / smoothedDist * magnitude, dy / smoothedDist * magnitude)
    else ((0 : ℝ), (0 : ℝ))).sum

/-- C5: the implemented pressure force coincides with the specification's
per-neighbour sum: same distance window, same smoothed-distance direction,
same `avg · kernelDerivative · multiplier` magnitude, and skipped pairs
contribute nothing. -/
theorem C5_pressure_force_refines_spec (ps : List Particle) (h sf : ℝ)
    (idx : ℕ) (pm : ℝ) :
    CalculatePressureForce ps h sf idx pm = pressureForceSpec ps h sf idx pm := by
  unfold CalculatePressureForce pressureForceSpec
  rw [foldl_guard_sum ((ps.getD idx default).neighborIndices)
    (fun j =>
      let nb := ps.getD j default
      let dx := nb.x - (ps.getD idx default).x
      let dy := nb.y - (ps.getD idx default).y
      let distSq := dx * dx + dy * dy
      distSq < KERNEL_EPSILON ∨ distSq ≥ h * h)
    (fun j =>
      let nb := ps.getD j default
      let dx := nb.x - (ps.getD idx default).x
      let dy := nb.y - (ps.getD idx default).y
      let distSq := dx * dx + dy * dy
      let smoothedDist := max (Real.sqrt distSq) (sf * h)
      let forceMagnitude := ((ps.getD idx default).pressure + nb.pressure) * 0.5 *
        SmoothingKernelDerivative smoothedDist h * pm
      (dx * (1 / smoothedDist) * forceMagnitude,
        dy * (1 / smoothedDist) * forceMagnitude))
    (0, 0)]
  rw [show ((0 : ℝ), (0 : ℝ)) = (0 : ℝ × ℝ) from rfl, zero_add]
  apply congrArg List.sum
  apply List.map_congr_left
  intro j _
  simp only []
  by_cases hc : KERNEL_EPSILON ≤
      ((ps.getD j default).x - (ps.getD idx default).x) *
        ((ps.getD j default).x - (ps.getD idx default).x) +
      ((ps.getD j default).y - (ps.getD idx default).y) *
        ((ps.getD j default).y - (ps.getD idx default).y) ∧
      ((ps.getD j default).x - (ps.getD idx default).x) *
        ((ps.getD j default).x - (ps.getD idx default).x) +
      ((ps.getD j default).y - (ps.getD idx default).y) *
        ((ps.getD j default).y - (ps.getD idx default).y) < h * h
  · rw [if_neg (by push_neg; exact hc), if_pos hc]
    have : ∀ u v : ℝ, u * (1 / v) = u / v := fun u v => by ring
    rw [this, this]
    ring_nf
  · rw [if_pos ?_, if_neg hc]
    push_neg at hc
    by_cases h1 : ((ps.getD j default).x - (ps.getD idx default).x) *
        ((ps.getD j default).x - (ps.getD idx default).x) +
      ((ps.getD j default).y - (ps.getD idx default).y) *
        ((ps.getD j default).y - (ps.getD idx default).y) < KERNEL_EPSILON
    · exact Or.inl h1
    · exact Or.inr (hc (not_lt.mp h1))

/-! ## Boundary handling (`spatial/boundaries.go`) -/

noncomputable def EPSILON : ℝ := 0.001

/-- The boundary dampening constant from `spatial/boundaries.go` (0.8,
distinct from the simulation's drag `DampeningFactor`). -/
noncomputable def DAMPENING_FACTOR : ℝ := 0.8

noncomputable def RANDOMIZATION_FACTOR : ℝ := 0.05

inductive BoundaryType where
  | Reflective
  | Periodic
deriving DecidableEq

/-- `RandomJitter(baseVelocity)` with the `rand.Float64()` draw `r ∈ [0,1)`
made explicit: `(r*2 - 1) * RANDOMIZATION_FACTOR * |baseVelocity|`. -/
noncomputable def RandomJitter (r baseVelocity : ℝ) : ℝ :=
  (r * 2 - 1) * RANDOMIZATION_FACTOR * |baseVelocity|

/-- `HandleBoundary(position, velocity *float64, limit, boundaryType)`,
returning the updated (position, velocity) pair; `r` is the jitter draw
consumed if a reflective bounce occurs.  The jitter is computed from the
already reversed-and-dampened velocity, exactly as in the source. -/
noncomputable def HandleBoundary (position velocity limit : ℝ)
    (boundaryType : BoundaryType) (r : ℝ) : ℝ × ℝ :=
  let pushOut := EPSILON * 2.0
  if position ≥ limit then
    match boundaryType with
    | .Reflective =>
        let v := velocity * -DAMPENING_FACTOR
        let jitter := RandomJitter r v
        (limit - pushOut, v + jitter * 0.1)
    | .Periodic => (0, velocity)
  else if position ≤ 0 then
    match boundaryType with
    | .Reflective =>
        let v := velocity * -DAMPENING_FACTOR
        let jitter := RandomJitter r v
        (pushOut, v + jitter * 0.1)
    | .Periodic => (limit, velocity)
  else (position, velocity)

theorem handleBoundary_upper_reflective (pos vel limit r : ℝ)
    (hp : pos ≥ limit) :
    HandleBoundary pos vel limit .Reflective r =
      (limit - EPSILON * 2.0,
        vel * -DAMPENING_FACTOR + RandomJitter r (vel * -DAMPENING_FACTOR) * 0.1) := by
  unfold HandleBoundary
  rw [if_pos hp]

theorem handleBoundary_lower_reflective (pos vel limit r : ℝ)
    (hp : pos ≤ 0) (hpl : ¬ pos ≥ limit) :
    HandleBoundary pos vel limit .Reflective r =
      (EPSILON * 2.0,
        vel * -DAMPENING_FACTOR + RandomJitter r (vel * -DAMPENING_FACTOR) * 0.1) := by
  unfold HandleBoundary
  rw [if_neg hpl, if_pos hp]

theorem handleBoundary_interior (pos vel limit : ℝ) (bt : BoundaryType) (r : ℝ)
    (h₀ : 0 < pos) (h₁ : pos < limit) :
    HandleBoundary pos vel limit bt r = (pos, vel) := by
  unfold HandleBoundary
  rw [if_neg (not_le.mpr h₁), if_neg (not_le.mpr h₀)]

/-- After one reflective bounce the velocity is the dampened reversal plus a
jitter of magnitude at most `0.05 · 0.8 · 0.1 = 0.004` times the incoming
speed. -/
theorem handleBoundary_reflected_velocity (vel r : ℝ)
    (hr0 : 0 ≤ r) (hr1 : r < 1) :
    |vel * -DAMPENING_FACTOR + RandomJitter r (vel * -DAMPENING_FACTOR) * 0.1 -
        -(DAMPENING_FACTOR * vel)| ≤ 0.004 * |vel| := by
  unfold RandomJitter RANDOMIZATION_FACTOR DAMPENING_FACTOR
  have habs : |vel * -(0.8 : ℝ)| = 0.8 * |vel| := by
    rw [abs_mul, abs_neg, abs_of_nonneg (by norm_num : (0:ℝ) ≤ 0.8), mul_comm]
  rw [habs]
  have h2 : |r * 2 - 1| ≤ 1 := by
    rw [abs_le]; constructor <;> nlinarith
  have hv : (0 : ℝ) ≤ |vel| := abs_nonneg vel
  calc |vel * -(0.8 : ℝ) + (r * 2 - 1) * 0.05 * (0.8 * |vel|) * 0.1 - -(0.8 * vel)|
      = |r * 2 - 1| * (0.004 * |vel|) := by
        rw [show vel * -(0.8 : ℝ) + (r * 2 - 1) * 0.05 * (0.8 * |vel|) * 0.1 - -(0.8 * vel)
            = (r * 2 - 1) * (0.004 * |vel|) from by ring]
        rw [abs_mul, abs_of_nonneg (by positivity : (0:ℝ) ≤ 0.004 * |vel|)]
    _ ≤ 1 * (0.004 * |vel|) := by
        apply mul_le_mul_of_nonneg_right h2 (by positivity)
    _ = 0.004 * |vel| := one_mul _

/-- C8: boundary resolution.  Reflective: a particle at or beyond a limit
moving outward is placed strictly inside the bounds (at `limit - 2ε`, resp.
`2ε`), with its velocity component reversed in sign and scaled by the
dampening factor up to the bounded jitter tolerance `0.004·|v|`.  Periodic:
the position is wrapped to the opposite edge (`0`, resp. `limit`) and the
velocity is unchanged. -/
theorem C8_handle_boundary (pos vel limit r : ℝ)
    (hr0 : 0 ≤ r) (hr1 : r < 1) (hlim : 0.004 < limit) :
    (pos ≥ limit → 0 < vel →
      (HandleBoundary pos vel limit .Reflective r).1 = limit - 0.002 ∧
      0 < (HandleBoundary pos vel limit .Reflective r).1 ∧
      (HandleBoundary pos vel limit .Reflective r).1 < limit ∧
      (HandleBoundary pos vel limit .Reflective r).2 < 0 ∧
      |(HandleBoundary pos vel limit .Reflective r).2 - -(DAMPENING_FACTOR * vel)| ≤
        0.004 * |vel|) ∧
    (pos ≤ 0 → vel < 0 →
      (HandleBoundary pos vel limit .Reflective r).1 = 0.002 ∧
      0 < (HandleBoundary pos vel limit .Reflective r).1 ∧
      (HandleBoundary pos vel limit .Reflective r).1 < limit ∧
      0 < (HandleBoundary pos vel limit .Reflective r).2 ∧
      |(HandleBoundary pos vel limit .Reflective r).2 - -(DAMPENING_FACTOR * vel)| ≤
        0.004 * |vel|) ∧
    (pos ≥ limit → HandleBoundary pos vel limit .Periodic r = (0, vel)) ∧
    (pos ≤ 0 → HandleBoundary pos vel limit .Periodic r = (limit, vel)) := by
  have hu : -1 ≤ r * 2 - 1 ∧ r * 2 - 1 < 1 := by constructor <;> nlinarith
  refine ⟨?_, ?_, ?_, ?_⟩
  · intro hp hv
    rw [handleBoundary_upper_reflective pos vel limit r hp]
    have hvel := handleBoundary_reflected_velocity vel r hr0 hr1
    refine ⟨by norm_num [EPSILON], by norm_num [EPSILON]; linarith,
      by norm_num [EPSILON], ?_, hvel⟩
    unfold RandomJitter RANDOMIZATION_FACTOR DAMPENING_FACTOR
    have habs : |vel * -(0.8 : ℝ)| = 0.8 * vel := by
      rw [abs_mul, abs_neg, abs_of_nonneg (by norm_num : (0:ℝ) ≤ 0.8),
        abs_of_pos hv, mul_comm]
    rw [habs]
    nlinarith
  · intro hp hv
    have hpl : ¬ pos ≥ limit := by intro hge; linarith
    rw [handleBoundary_lower_reflective pos vel limit r hp hpl]
    have hvel := handleBoundary_reflected_velocity vel r hr0 hr1
    refine ⟨by norm_num [EPSILON], by norm_num [EPSILON],
      by norm_num [EPSILON]; linarith, ?_, hvel⟩
    unfold RandomJitter RANDOMIZATION_FACTOR DAMPENING_FACTOR
    have habs : |vel * -(0.8 : ℝ)| = 0.8 * -vel := by
      rw [abs_mul, abs_neg, abs_of_nonneg (by norm_num : (0:ℝ) ≤ 0.8),
        abs_of_neg hv]
      ring
    rw [habs]
    nlinarith
  · intro hp
    unfold HandleBoundary
    rw [if_pos hp]
  · intro hp
    have hpl : ¬ pos ≥ limit := by intro hge; linarith
    unfold HandleBoundary
    rw [if_neg hpl, if_pos hp]

/-- C8 (witness): a particle at `101` in a `[0, 100]` axis moving outward at
speed `5`, with the middle jitter draw `r = 1/2` (zero jitter): reflective
resolution puts it at `99.998` with velocity exactly `-4`; periodic
resolution wraps it to `0` with velocity still `5`. -/
theorem C8_handle_boundary_witness :
    (HandleBoundary 101 5 100 .Reflective (1/2)).1 = 100 - 0.002 ∧
      (HandleBoundary 101 5 100 .Reflective (1/2)).2 < 0 ∧
      HandleBoundary 101 5 100 .Periodic (1/2) = (0, 5) := by
  have h := C8_handle_boundary 101 5 100 (1/2) (by norm_num) (by norm_num)
    (by norm_num)
  obtain ⟨h₁, h₂, h₃⟩ := h.1 (by norm_num) (by norm_num) |>.1,
    (h.1 (by norm_num) (by norm_num)).2.2.2.1, h.2.2.1 (by norm_num)
  exact ⟨h₁, h₂, h₃⟩

/-! ## Semi-implicit integrator (`simulation/integration.go`) -/

/-- The velocity-update half of `Integrate`: `v += (F/m)·dt` when the mass is
positive, `v += F·dt` otherwise (the source performs no division for
non-positive mass). -/
noncomputable def integrateVelocity (p : Particle) (dt : ℝ) : ℝ × ℝ :=
  if p.mass > 0 then
    (p.vx + p.fx / p.mass * dt, p.vy + p.fy / p.mass * dt)
  else
    (p.vx + p.fx * dt, p.vy + p.fy * dt)

/-- One particle's step of `Integrate(dt)`: update the velocity from the
accumulated force, advance the position, then resolve both axes against the
domain boundaries.  `r` carries the two jitter draws consumed on bounces. -/
noncomputable def integrateParticle (p : Particle) (dt domX domY : ℝ)
    (lb tb : BoundaryType) (r : ℝ × ℝ) : Particle :=
  let v := integrateVelocity p dt
  let x := p.x + v.1 * dt
  let y := p.y + v.2 * dt
  let bx := HandleBoundary x v.1 domX lb r.1
  let bby := HandleBoundary y v.2 domY tb r.2
  { p with x := bx.1, vx := bx.2, y := bby.1, vy := bby.2 }

/-- C10: the integrator's velocity update is total in the mass: a positive
mass divides the force by the mass, a non-positive mass (zero included) uses
the force directly with no division performed. -/
theorem C10_integrate_mass_guard (p : Particle) (dt : ℝ) :
    (0 < p.mass →
      integrateVelocity p dt =
        (p.vx + p.fx / p.mass * dt, p.vy + p.fy / p.mass * dt)) ∧
    (p.mass ≤ 0 →
      integrateVelocity p dt = (p.vx + p.fx * dt, p.vy + p.fy * dt)) := by
  constructor
  · intro h
    unfold integrateVelocity
    rw [if_pos h]
  · intro h
    unfold integrateVelocity
    rw [if_neg (not_lt.mpr h)]

/-- C10 (witness): the mass guard evaluated at mass `2` (division path,
`1 + (4/2)·(1/2) = 2`) and at mass `0` (no-division path,
`1 + 3·(1/2) = 5/2`). -/
theorem C10_integrate_mass_guard_witness :
    integrateVelocity { vx := 1, fx := 4, mass := 2 : Particle } (1/2) = (2, 0) ∧
      integrateVelocity { vx := 1, fx := 3, mass := 0 : Particle } (1/2) = (5/2, 0) := by
  constructor
  · rw [(C10_integrate_mass_guard { vx := 1, fx := 4, mass := 2 : Particle }
      (1/2)).1 (by norm_num)]
    norm_num
  · rw [(C10_integrate_mass_guard { vx := 1, fx := 3, mass := 0 : Particle }
      (1/2)).2 (by norm_num)]
    norm_num

/-! ## Long-range attraction pass (`CalculateAttractionForces`) -/

/-- The 3×3 neighbourhood offsets, in the source's loop order
(`nx` outer from `-1` to `1`, `ny` inner from `-1` to `1`). -/
def neighborOffsets : List (ℤ × ℤ) :=
  [(-1, -1), (-1, 0), (-1, 1), (0, -1), (0, 0), (0, 1), (1, -1), (1, 0), (1, 1)]

/-- The distance window in which `accumulateCellAttractionForces` accumulates
a pair: squared distance at least `KERNEL_EPSILON` (the coincident-particle
guard of §7 of the design) and strictly below the squared interaction radius.
This is the "interacting pair" notion of the momentum-conservation property. -/
noncomputable def InteractingPair (ps : List Particle) (irSq : ℝ) (i j : ℕ) : Prop :=
  KERNEL_EPSILON ≤
      ((ps.getD j default).x - (ps.getD i default).x) *
        ((ps.getD j default).x - (ps.getD i default).x) +
      ((ps.getD j default).y - (ps.getD i default).y) *
        ((ps.getD j default).y - (ps.getD i default).y) ∧
    ((ps.getD j default).x - (ps.getD i default).x) *
        ((ps.getD j default).x - (ps.getD i default).x) +
      ((ps.getD j default).y - (ps.getD i default).y) *
        ((ps.getD j default).y - (ps.getD i default).y) < irSq

noncomputable instance (ps : List Particle) (irSq : ℝ) (i j : ℕ) :
    Decidable (InteractingPair ps irSq i j) := by
  unfold InteractingPair
  infer_instance

/-- The per-pair force vector of the attraction pass, translated line by line
from the body of `accumulateCellAttractionForces`:
`G·(dx, dy)` with `G = (forceScale · m₁·m₂ / smoothedDist²) / distance`. -/
noncomputable def attractionPairForce (ps : List Particle) (forceScale sf h : ℝ)
    (i j : ℕ) : ℝ × ℝ :=
  let p1 := ps.getD i default
  let p2 := ps.getD j default
  let dx := p2.x - p1.x
  let dy := p2.y - p1.y
  let distSq := dx * dx + dy * dy
  let distance := Real.sqrt distSq
  let smoothedDist := max distance (sf * h)
  let massFactor := p1.mass * p2.mass
  let forceMagnitude := forceScale * massFactor / (smoothedDist * smoothedDist)
  let G := forceMagnitude / distance
  (G * dx, G * dy)

/-- The body of the innermost pair loop of `accumulateCellAttractionForces`:
skip when `p1Idx >= p2Idx`, when outside the distance window, or on the
defensive smoothed-distance check; otherwise add the pair force to slot `i`
of the task-local accumulator and subtract it from slot `j`.  (The source's
`IsNaN` guard is identically false in real arithmetic; the IEEE-model section
treats it separately.) -/
noncomputable def accumulatePair (ps : List Particle) (forceScale irSq sf h : ℝ)
    (acc : ℕ → ℝ × ℝ) (i j : ℕ) : ℕ → ℝ × ℝ :=
  if i ≥ j then acc
  else
    let p1 := ps.getD i default
    let p2 := ps.getD j default
    let dx := p2.x - p1.x
    let dy := p2.y - p1.y
    let distSq := dx * dx + dy * dy
    if distSq ≥ irSq ∨ distSq < KERNEL_EPSILON then acc
    else
      let distance := Real.sqrt distSq
      let smoothedDist := max distance (sf * h)
      if smoothedDist < KERNEL_EPSILON then acc
      else
        fun q =>
          if q = i then acc q + attractionPairForce ps forceScale sf h i j
          else if q = j then acc q - attractionPairForce ps forceScale sf h i j
          else acc q

/-- One task of the attraction pass (`accumulateCellAttractionForces`): scan
the 3×3 block of cells around the task's cell key and fold every candidate
pair through `accumulatePair`, starting from the task-local zero
accumulator passed in as `acc`. -/
noncomputable def accumulateCellAttractionForces (ps : List Particle)
    (cm : CellMap) (forceScale irSq sf h : ℝ) (cellKey : ℤ)
    (acc : ℕ → ℝ × ℝ) : ℕ → ℝ × ℝ :=
  neighborOffsets.foldl
    (fun acc d =>
      let nk := MakeCellIndex (getCoordX cellKey + d.1) (getCoordY cellKey + d.2)
      let nbIndices := cellLookup cm nk
      (cellLookup cm cellKey).foldl
        (fun acc i =>
          nbIndices.foldl
            (fun acc j => accumulatePair ps forceScale irSq sf h acc i j) acc)
        acc)
    acc

/-- `reduceLocalForces`: merge every task-local accumulator into the global
per-particle force array.  The source iterates the worker maps sequentially
(the atomic float add makes the merge order irrelevant); the merged result
for particle `q` is its old force plus the sum of all task contributions
for `q`. -/
noncomputable def reduceLocalForces (ps : List Particle)
    (accs : List (ℕ → ℝ × ℝ)) : List Particle :=
  ps.mapIdx fun q p =>
    let d := accs.foldl (fun v a => v + a q) (0, 0)
    { p with fx := p.fx + d.1, fy := p.fy + d.2 }

/-- `CalculateAttractionForces`: skip when the attraction factor is
negligible or the interaction radius non-positive; otherwise run one task per
cell key of the grid map and merge the task-local accumulators. -/
noncomputable def CalculateAttractionForces (ps : List Particle) (cm : CellMap)
    (attractionFactor sf h : ℝ) : List Particle :=
  if |attractionFactor| < 1e-6 ∨ h ≤ 0 then ps
  else
    let cellKeys := cm.map Prod.fst
    if cellKeys.isEmpty then ps
    else
      let irSq := h * h
      let accs := cellKeys.map fun k =>
        accumulateCellAttractionForces ps cm attractionFactor irSq sf h k
          (fun _ => (0, 0))
      reduceLocalForces ps accs

/-- The coincident-particle guard implies the defensive smoothed-distance
guard can never fire: `smoothedDist ≥ dist = √distSq ≥ √(10⁻⁶) = 10⁻³`. -/
theorem smoothedDist_ge_eps {distSq sf h : ℝ} (hd : KERNEL_EPSILON ≤ distSq) :
    ¬ max (Real.sqrt distSq) (sf * h) < KERNEL_EPSILON := by
  have h1 : (0.001 : ℝ) ≤ Real.sqrt distSq := by
    rw [show (0.001 : ℝ) = Real.sqrt 0.000001 by
      rw [show (0.000001 : ℝ) = 0.001 ^ 2 by norm_num]
      exact (Real.sqrt_sq (by norm_num)).symm]
    exact Real.sqrt_le_sqrt (by rw [show (0.000001 : ℝ) = KERNEL_EPSILON by norm_num [KERNEL_EPSILON]]; exact hd)
  intro hcon
  have h2 : Real.sqrt distSq ≤ max (Real.sqrt distSq) (sf * h) := le_max_left _ _
  have h3 : KERNEL_EPSILON = (0.000001 : ℝ) := by norm_num [KERNEL_EPSILON]
  rw [h3] at hcon
  linarith

/-- The per-pair delta written by `accumulatePair` into the accumulator,
as a pure function of the pair, with the same guard structure as the loop
body. -/
noncomputable def pairDelta (ps : List Particle) (forceScale irSq sf h : ℝ)
    (i j q : ℕ) : ℝ × ℝ :=
  if i ≥ j then 0
  else
    let p1 := ps.getD i default
    let p2 := ps.getD j default
    let dx := p2.x - p1.x
    let dy := p2.y - p1.y
    let distSq := dx * dx + dy * dy
    if distSq ≥ irSq ∨ distSq < KERNEL_EPSILON then 0
    else if max (Real.sqrt distSq) (sf * h) < KERNEL_EPSILON then 0
    else
      (if q = i then attractionPairForce ps forceScale sf h i j else 0) -
        (if q = j then attractionPairForce ps forceScale sf h i j else 0)

/-- `accumulatePair` acts additively: it adds `pairDelta` pointwise. -/
theorem accumulatePair_eq_add (ps : List Particle) (forceScale irSq sf h : ℝ)
    (acc : ℕ → ℝ × ℝ) (i j : ℕ) :
    accumulatePair ps forceScale irSq sf h acc i j =
      fun q => acc q + pairDelta ps forceScale irSq sf h i j q := by
  funext q
  simp only [accumulatePair, pairDelta]
  split_ifs with h1 h2 h3 hqi hqj <;>
    simp_all [sub_eq_add_neg]

/-- Semantic form of `pairDelta`: outside an ordered interacting pair it is
zero; on an ordered interacting pair it is `+F` on slot `i` and `-F` on slot
`j` (the defensive smoothed-distance guard never fires inside the window). -/
theorem pairDelta_eq (ps : List Particle) (forceScale irSq sf h : ℝ)
    (i j q : ℕ) :
    pairDelta ps forceScale irSq sf h i j q =
      if i < j ∧ InteractingPair ps irSq i j then
        (if q = i then attractionPairForce ps forceScale sf h i j else 0) -
          (if q = j then attractionPairForce ps forceScale sf h i j else 0)
      else 0 := by
  simp only [pairDelta, InteractingPair]
  set A := ((ps.getD j default).x - (ps.getD i default).x) *
      ((ps.getD j default).x - (ps.getD i default).x) +
    ((ps.getD j default).y - (ps.getD i default).y) *
      ((ps.getD j default).y - (ps.getD i default).y) with hA
  by_cases h1 : i ≥ j
  · rw [if_pos h1, if_neg (show ¬ (i < j ∧ KERNEL_EPSILON ≤ A ∧ A < irSq) from by
      rintro ⟨hlt, -⟩; omega)]
  · rw [if_neg h1]
    by_cases h2 : A ≥ irSq ∨ A < KERNEL_EPSILON
    · rw [if_pos h2, if_neg (show ¬ (i < j ∧ KERNEL_EPSILON ≤ A ∧ A < irSq) from by
        rintro ⟨-, hge, hlt⟩
        rcases h2 with hw | hw
        · exact absurd hlt (not_lt.mpr hw)
        · exact absurd hge (not_le.mpr hw))]
    · have h2' := not_or.mp h2
      rw [if_neg h2, if_neg (smoothedDist_ge_eps (not_lt.mp h2'.2)),
        if_pos (show i < j ∧ KERNEL_EPSILON ≤ A ∧ A < irSq from
          ⟨by omega, not_lt.mp h2'.2, not_le.mp h2'.1⟩)]

/-- Go's truncation toward zero moves by at most one cell between two points
less than one unit apart. -/
theorem goTrunc_diff_le_one {u v : ℝ} (h : |u - v| < 1) :
    |goTrunc u - goTrunc v| ≤ 1 := by
  rw [abs_lt] at h
  unfold goTrunc
  by_cases hu : 0 ≤ u <;> by_cases hv : 0 ≤ v
  · rw [if_pos hu, if_pos hv, abs_le]
    have h₁ : ⌊u⌋ ≤ ⌊v⌋ + 1 := by
      rw [show ⌊v⌋ + 1 = ⌊v + 1⌋ from (Int.floor_add_one v).symm]
      exact Int.floor_le_floor (by linarith)
    have h₂ : ⌊v⌋ ≤ ⌊u⌋ + 1 := by
      rw [show ⌊u⌋ + 1 = ⌊u + 1⌋ from (Int.floor_add_one u).symm]
      exact Int.floor_le_floor (by linarith)
    omega
  · rw [if_pos hu, if_neg hv]
    push_neg at hv
    have hu1 : u < 1 := by linarith
    have hfl : ⌊u⌋ = 0 := Int.floor_eq_zero_iff.mpr ⟨hu, hu1⟩
    have hcl : ⌈v⌉ = 0 := by
      rw [Int.ceil_eq_zero_iff]
      constructor
      · show (-1 : ℝ) < v
        linarith
      · exact le_of_lt hv
    rw [hfl, hcl]
    norm_num
  · rw [if_neg hu, if_pos hv]
    push_neg at hu
    have hv1 : v < 1 := by linarith
    have hfl : ⌊v⌋ = 0 := Int.floor_eq_zero_iff.mpr ⟨hv, hv1⟩
    have hcl : ⌈u⌉ = 0 := by
      rw [Int.ceil_eq_zero_iff]
      constructor
      · show (-1 : ℝ) < u
        linarith
      · exact le_of_lt hu
    rw [hfl, hcl]
    norm_num
  · rw [if_neg hu, if_neg hv, abs_le]
    have h₁ : ⌈u⌉ ≤ ⌈v⌉ + 1 := by
      rw [show ⌈v⌉ + 1 = ⌈v + 1⌉ from (Int.ceil_add_one v).symm]
      exact Int.ceil_le_ceil (by linarith)
    have h₂ : ⌈v⌉ ≤ ⌈u⌉ + 1 := by
      rw [show ⌈u⌉ + 1 = ⌈u + 1⌉ from (Int.ceil_add_one u).symm]
      exact Int.ceil_le_ceil (by linarith)
    omega

/-- Two positions within the interaction radius of each other lie in the same
or adjacent cells of the grid (cell size = interaction radius), for each
axis separately. -/
theorem cells_adjacent_of_close {a b h : ℝ} (hh : 0 < h) (hab : |a - b| < h) :
    |goTrunc (a / h) - goTrunc (b / h)| ≤ 1 := by
  apply goTrunc_diff_le_one
  rw [div_sub_div_same, abs_div, abs_of_pos hh, div_lt_one hh]
  exact hab

/-- An interacting pair (squared distance below `h²`) occupies the same or
adjacent grid cells on both axes. -/
theorem interactingPair_cells_adjacent {ps : List Particle} {h : ℝ} {i j : ℕ}
    (hh : 0 < h) (hint : InteractingPair ps (h * h) i j) :
    |posCellX (ps.getD i default) h - posCellX (ps.getD j default) h| ≤ 1 ∧
      |posCellY (ps.getD i default) h - posCellY (ps.getD j default) h| ≤ 1 := by
  obtain ⟨-, hlt⟩ := hint
  set dx := (ps.getD j default).x - (ps.getD i default).x with hdx
  set dy := (ps.getD j default).y - (ps.getD i default).y with hdy
  have hdx2 : dx * dx < h * h := by nlinarith [mul_self_nonneg dy]
  have hdy2 : dy * dy < h * h := by nlinarith [mul_self_nonneg dx]
  have habsx : |(ps.getD i default).x - (ps.getD j default).x| < h := by
    rw [abs_sub_comm, show (ps.getD j default).x - (ps.getD i default).x = dx from rfl]
    rw [abs_lt]
    constructor <;> nlinarith
  have habsy : |(ps.getD i default).y - (ps.getD j default).y| < h := by
    rw [abs_sub_comm, show (ps.getD j default).y - (ps.getD i default).y = dy from rfl]
    rw [abs_lt]
    constructor <;> nlinarith
  exact ⟨cells_adjacent_of_close hh habsx, cells_adjacent_of_close hh habsy⟩

/-! ## Counting infrastructure for the pair-uniqueness argument -/

theorem keys_cellInsert (m : CellMap) (k : ℤ) (idx : ℕ) :
    (cellInsert m k idx).map Prod.fst =
      if k ∈ m.map Prod.fst then m.map Prod.fst else m.map Prod.fst ++ [k] := by
  induction m with
  | nil => simp [cellInsert]
  | cons hd tl ih =>
      obtain ⟨k₀, l₀⟩ := hd
      by_cases h₀ : k₀ = k
      · subst h₀
        simp [cellInsert]
      · simp only [cellInsert, if_neg h₀, List.map_cons, ih]
        by_cases hmem : k ∈ tl.map Prod.fst
        · rw [if_pos hmem, if_pos (by simp [hmem])]
        · rw [if_neg hmem, if_neg (by simp [hmem, Ne.symm h₀])]
          simp

theorem nodup_keys_buildCellMap (ps : List Particle) (cellSize : ℝ) :
    ((buildCellMap ps cellSize).map Prod.fst).Nodup := by
  unfold buildCellMap
  generalize ps.enum = l
  have main : ∀ (l : List (ℕ × Particle)) (m : CellMap),
      (m.map Prod.fst).Nodup →
      ((l.foldl (fun m ip => cellInsert m (posCellKey ip.2 cellSize) ip.1) m).map
        Prod.fst).Nodup := by
    intro l
    induction l with
    | nil => intro m hm; simpa using hm
    | cons hd tl ih =>
        intro m hm
        rw [List.foldl_cons]
        apply ih
        rw [keys_cellInsert]
        by_cases hmem : posCellKey hd.2 cellSize ∈ m.map Prod.fst
        · rwa [if_pos hmem]
        · rw [if_neg hmem]
          refine List.Nodup.append hm (List.nodup_singleton _) ?_
          intro a ha hak
          rw [List.mem_singleton] at hak
          subst hak
          exact hmem ha
  exact main l [] (by simp)

theorem key_mem_of_mem_cellLookup {m : CellMap} {k : ℤ} {i : ℕ}
    (h : i ∈ cellLookup m k) : k ∈ m.map Prod.fst := by
  induction m with
  | nil => simp [cellLookup] at h
  | cons hd tl ih =>
      obtain ⟨k₀, l₀⟩ := hd
      simp only [cellLookup] at h
      by_cases h₀ : k₀ = k
      · simp [h₀]
      · rw [if_neg h₀] at h
        simp [ih h]

/-- Count of an index in a rebuilt cell list: one in the particle's own cell,
zero elsewhere. -/
theorem count_cellLookup_buildCellMap (ps : List Particle) (cellSize : ℝ)
    (k : ℤ) (i : ℕ) (hi : i < ps.length) :
    (cellLookup (buildCellMap ps cellSize) k).count i =
      if posCellKey (ps.getD i default) cellSize = k then 1 else 0 := by
  have hget : ps.getD i default = ps.get ⟨i, hi⟩ := by
    rw [List.getD_eq_getElem?_getD, List.getElem?_eq_getElem hi]
    simp
  by_cases hkey : posCellKey (ps.getD i default) cellSize = k
  · rw [if_pos hkey]
    apply List.count_eq_one_of_mem (nodup_cellLookup_buildCellMap ps cellSize k)
    rw [mem_cellLookup_buildCellMap]
    exact ⟨hi, by rw [← hget]; exact hkey⟩
  · rw [if_neg hkey, List.count_eq_zero]
    intro hmem
    rw [mem_cellLookup_buildCellMap] at hmem
    obtain ⟨h', hk⟩ := hmem
    exact hkey (by rw [hget]; exact hk)

theorem count_cellLookup_of_ge (ps : List Particle) (cellSize : ℝ)
    (k : ℤ) (i : ℕ) (hi : ps.length ≤ i) :
    (cellLookup (buildCellMap ps cellSize) k).count i = 0 := by
  rw [List.count_eq_zero]
  intro hmem
  rw [mem_cellLookup_buildCellMap] at hmem
  obtain ⟨h', -⟩ := hmem
  omega

theorem sum_map_eq_of_unique {α : Type} (l : List α) (f : α → ℕ) (a : α)
    (hnd : l.Nodup) (ha : a ∈ l) (hzero : ∀ b ∈ l, b ≠ a → f b = 0) :
    (l.map f).sum = f a := by
  induction l with
  | nil => cases ha
  | cons x xs ih =>
      rw [List.map_cons, List.sum_cons]
      rcases List.mem_cons.mp ha with rfl | hmem
      · have hxs : (xs.map f).sum = 0 := by
          rw [List.sum_eq_zero]
          intro y hy
          obtain ⟨b, hb, rfl⟩ := List.mem_map.mp hy
          exact hzero b (List.mem_cons_of_mem _ hb)
            (fun hba => (List.nodup_cons.mp hnd).1 (hba ▸ hb))
        omega
      · have hx : f x = 0 :=
          hzero x (List.mem_cons_self _ _)
            (fun hxa => (List.nodup_cons.mp hnd).1 (hxa ▸ hmem))
        rw [hx, ih (List.nodup_cons.mp hnd).2 hmem
          (fun b hb hba => hzero b (List.mem_cons_of_mem _ hb) hba), zero_add]

theorem sum_map_ite_one {α : Type} (l : List α) (p : α → Prop) [DecidablePred p] :
    (l.map fun x => if p x then (1 : ℕ) else 0).sum = l.countP fun x => decide (p x) := by
  induction l with
  | nil => simp
  | cons x xs ih =>
      rw [List.map_cons, List.sum_cons, ih, List.countP_cons]
      by_cases hx : p x
      · simp [hx]
        omega
      · simp [hx]

theorem countP_eq_one_of_unique {α : Type} (l : List α) (p : α → Bool) (a : α)
    (hnd : l.Nodup) (ha : a ∈ l) (hpa : p a)
    (huniq : ∀ b ∈ l, p b → b = a) : l.countP p = 1 := by
  induction l with
  | nil => cases ha
  | cons x xs ih =>
      rw [List.countP_cons]
      rcases List.mem_cons.mp ha with rfl | hmem
      · rw [if_pos hpa]
        have : xs.countP p = 0 := by
          rw [List.countP_eq_zero]
          intro b hb hpb
          exact absurd (huniq b (List.mem_cons_of_mem _ hb) hpb)
            (fun hba => (List.nodup_cons.mp hnd).1 (hba ▸ hb))
        omega
      · have hx : ¬ p x = true := fun hpx =>
          (List.nodup_cons.mp hnd).1 ((huniq x (List.mem_cons_self _ _) hpx) ▸ hmem)
        rw [if_neg hx, ih (List.nodup_cons.mp hnd).2 hmem
          (fun b hb hpb => huniq b (List.mem_cons_of_mem _ hb) hpb)]

/-! ## Sum characterisation of the attraction pass -/

/-- Folding an accumulator-additive body sums the per-element deltas. -/
theorem foldl_addfun {α : Type} (l : List α) (g : α → ℕ → ℝ × ℝ)
    (F : (ℕ → ℝ × ℝ) → α → (ℕ → ℝ × ℝ))
    (hF : ∀ a t, F a t = fun q => a q + g t q) (acc : ℕ → ℝ × ℝ) :
    l.foldl F acc = fun q => acc q + (l.map fun t => g t q).sum := by
  induction l generalizing acc with
  | nil => funext q; simp
  | cons x xs ih =>
      rw [List.foldl_cons, hF, ih]
      funext q
      simp [add_assoc]

/-- The 3×3 neighbour key scanned by a task at offset `d`. -/
def taskNeighborKey (cellKey : ℤ) (d : ℤ × ℤ) : ℤ :=
  MakeCellIndex (getCoordX cellKey + d.1) (getCoordY cellKey + d.2)

theorem accumulateCell_eq_sum (ps : List Particle) (cm : CellMap)
    (forceScale irSq sf h : ℝ) (k : ℤ) (acc : ℕ → ℝ × ℝ) :
    accumulateCellAttractionForces ps cm forceScale irSq sf h k acc =
      fun q => acc q +
        (neighborOffsets.map fun d =>
          ((cellLookup cm k).map fun i =>
            ((cellLookup cm (taskNeighborKey k d)).map fun j =>
              pairDelta ps forceScale irSq sf h i j q).sum).sum).sum := by
  unfold accumulateCellAttractionForces
  refine foldl_addfun _ _ _ ?_ acc
  intro a d
  refine foldl_addfun _ _ _ ?_ a
  intro a i
  refine foldl_addfun _ _ _ ?_ a
  intro a j
  exact accumulatePair_eq_add ps forceScale irSq sf h a i j

/-- The ordered interacting pairs a task contributes, in processing order. -/
noncomputable def taskProcessedPairs (ps : List Particle) (cm : CellMap)
    (irSq : ℝ) (k : ℤ) : List (ℕ × ℕ) :=
  neighborOffsets.flatMap fun d =>
    (cellLookup cm k).flatMap fun i =>
      (cellLookup cm (taskNeighborKey k d)).filterMap fun j =>
        if i < j ∧ InteractingPair ps irSq i j then some (i, j) else none

/-- All ordered interacting pairs processed by the attraction pass, across
its per-cell tasks. -/
noncomputable def processedPairs (ps : List Particle) (cm : CellMap)
    (irSq : ℝ) : List (ℕ × ℕ) :=
  (cm.map Prod.fst).flatMap (taskProcessedPairs ps cm irSq)

/-- The indicator contribution of one processed pair to slot `q`. -/
noncomputable def pairContribution (ps : List Particle) (forceScale sf h : ℝ)
    (ij : ℕ × ℕ) (q : ℕ) : ℝ × ℝ :=
  (if q = ij.1 then attractionPairForce ps forceScale sf h ij.1 ij.2 else 0) -
    (if q = ij.2 then attractionPairForce ps forceScale sf h ij.1 ij.2 else 0)

theorem sum_pairDelta_eq_filterMap (ps : List Particle)
    (forceScale irSq sf h : ℝ) (js : List ℕ) (i q : ℕ) :
    (js.map fun j => pairDelta ps forceScale irSq sf h i j q).sum =
      ((js.filterMap fun j =>
          if i < j ∧ InteractingPair ps irSq i j then some (i, j) else none).map
        fun ij => pairContribution ps forceScale sf h ij q).sum := by
  induction js with
  | nil => simp
  | cons j js ih =>
      rw [List.map_cons, List.sum_cons, List.filterMap_cons]
      by_cases hc : i < j ∧ InteractingPair ps irSq i j
      · rw [if_pos hc, List.map_cons, List.sum_cons, ih, pairDelta_eq, if_pos hc]
        rfl
      · rw [if_neg hc, ih, pairDelta_eq, if_neg hc, zero_add]

theorem sum_map_bind {α β : Type} (l : List α) (f : α → List β) (g : β → ℝ × ℝ) :
    ((l.flatMap f).map g).sum = (l.map fun x => ((f x).map g).sum).sum := by
  induction l with
  | nil => simp
  | cons x xs ih => simp [List.flatMap_cons, ih]

theorem count_bind {α β : Type} [BEq β] (l : List α) (f : α → List β)
    (b : β) : (l.flatMap f).count b = (l.map fun x => (f x).count b).sum := by
  induction l with
  | nil => simp
  | cons x xs ih => simp [List.flatMap_cons, List.count_append, ih]

/-- A task's accumulator contribution, rewritten as a sum of per-pair
indicator contributions over the pairs it processes. -/
theorem accumulateCell_eq_pairs (ps : List Particle) (cm : CellMap)
    (forceScale irSq sf h : ℝ) (k : ℤ) (acc : ℕ → ℝ × ℝ) :
    accumulateCellAttractionForces ps cm forceScale irSq sf h k acc =
      fun q => acc q +
        ((taskProcessedPairs ps cm irSq k).map fun ij =>
          pairContribution ps forceScale sf h ij q).sum := by
  rw [accumulateCell_eq_sum]
  funext q
  congr 1
  unfold taskProcessedPairs
  rw [sum_map_bind]
  apply congrArg List.sum
  apply List.map_congr_left
  intro d _
  rw [sum_map_bind]
  apply congrArg List.sum
  apply List.map_congr_left
  intro i _
  exact sum_pairDelta_eq_filterMap ps forceScale irSq sf h _ i q

theorem filterMap_if_eq_map_filter {α β : Type} (l : List α) (p : α → Prop)
    [DecidablePred p] (f : α → β) :
    (l.filterMap fun x => if p x then some (f x) else none) =
      (l.filter fun x => decide (p x)).map f := by
  induction l with
  | nil => simp
  | cons x xs ih =>
      rw [List.filterMap_cons, List.filter_cons]
      by_cases hx : p x <;> simp [hx, ih]

theorem count_filter_eq (js : List ℕ) (j : ℕ) (p : ℕ → Prop)
    [DecidablePred p] :
    (js.filter fun x => decide (p x)).count j = if p j then js.count j else 0 := by
  induction js with
  | nil => simp
  | cons x xs ih =>
      rw [List.filter_cons]
      by_cases hx : p x
      · rw [if_pos (by simpa using hx)]
        by_cases hxj : j = x
        · subst hxj
          rw [List.count_cons_self, ih, if_pos hx, List.count_cons_self, if_pos hx]
        · rw [List.count_cons_of_ne hxj, ih, List.count_cons_of_ne hxj]
      · rw [if_neg (by simpa using hx), ih]
        by_cases hpj : p j
        · have hjx : j ≠ x := by rintro rfl; exact hx hpj
          rw [if_pos hpj, if_pos hpj, List.count_cons_of_ne hjx]
        · rw [if_neg hpj, if_neg hpj]

theorem count_map_pair (l : List ℕ) (i' j : ℕ) :
    ((l.map fun j' => ((i', j') : ℕ × ℕ)).count (i', j)) = l.count j := by
  induction l with
  | nil => rfl
  | cons x xs ih =>
      rw [List.map_cons, List.count_cons, List.count_cons, ih]
      by_cases hxj : j = x
      · subst hxj
        simp
      · simp [hxj, Prod.ext_iff]

theorem count_pair_filterMap (js : List ℕ) (i' i j : ℕ) (P : ℕ → ℕ → Prop)
    [∀ a b, Decidable (P a b)] :
    ((js.filterMap fun j' => if P i' j' then some (i', j') else none).count (i, j)) =
      if i' = i ∧ P i j then js.count j else 0 := by
  rw [filterMap_if_eq_map_filter js (P i') (fun j' => (i', j'))]
  by_cases hi : i' = i
  · subst hi
    rw [count_map_pair, count_filter_eq]
    by_cases hP : P i' j
    · rw [if_pos hP, if_pos (show i' = i' ∧ P i' j from ⟨rfl, hP⟩)]
    · rw [if_neg hP, if_neg (show ¬ (i' = i' ∧ P i' j) from by rintro ⟨-, hc⟩; exact hP hc)]
  · rw [if_neg (show ¬ (i' = i ∧ P i j) from by rintro ⟨hc, -⟩; exact hi hc),
      List.count_eq_zero]
    intro hmem
    obtain ⟨j', -, hj'⟩ := List.mem_map.mp hmem
    exact hi (congrArg Prod.fst hj')

theorem sum_map_ite_eq_count (l : List ℕ) (i : ℕ) (c : ℕ) (C : Prop)
    [Decidable C] :
    (l.map fun i' => if i' = i ∧ C then c else 0).sum =
      if C then l.count i * c else 0 := by
  induction l with
  | nil => simp
  | cons x xs ih =>
      rw [List.map_cons, List.sum_cons, ih]
      by_cases hC : C
      · rw [if_pos hC, if_pos hC]
        by_cases hx : x = i
        · subst hx
          rw [if_pos (show x = x ∧ C from ⟨rfl, hC⟩), List.count_cons_self]
          ring
        · rw [if_neg (show ¬ (x = i ∧ C) from by rintro ⟨hc, -⟩; exact hx hc),
            List.count_cons_of_ne (fun hc => hx hc.symm), Nat.zero_add]
      · rw [if_neg (show ¬ (x = i ∧ C) from by rintro ⟨-, hc⟩; exact hC hc),
          if_neg hC, if_neg hC, Nat.zero_add]

theorem mem_neighborOffsets_of_abs_le {u v : ℤ} (hu : |u| ≤ 1) (hv : |v| ≤ 1) :
    (u, v) ∈ neighborOffsets := by
  rw [abs_le] at hu hv
  have hu3 : u = -1 ∨ u = 0 ∨ u = 1 := by omega
  have hv3 : v = -1 ∨ v = 0 ∨ v = 1 := by omega
  rcases hu3 with rfl | rfl | rfl <;> rcases hv3 with rfl | rfl | rfl <;> decide

theorem abs_le_one_of_mem_neighborOffsets {d : ℤ × ℤ}
    (hd : d ∈ neighborOffsets) : |d.1| ≤ 1 ∧ |d.2| ≤ 1 := by
  fin_cases hd <;> decide

theorem sum_map_mul_left_nat {α : Type} (l : List α) (a : ℕ) (f : α → ℕ) :
    (l.map fun x => a * f x).sum = a * (l.map f).sum := by
  induction l with
  | nil => simp
  | cons x xs ih => simp [ih, Nat.mul_add]

theorem getD_eq_get (ps : List Particle) (i : ℕ) (hi : i < ps.length) :
    ps.getD i default = ps.get ⟨i, hi⟩ := by
  rw [List.getD_eq_getElem?_getD, List.getElem?_eq_getElem hi]
  simp

/-- Every ordered interacting pair is processed exactly once by the
attraction pass run over the freshly rebuilt grid (cell size = interaction
radius); every other ordered pair is processed zero times. -/
theorem count_processedPairs (ps : List Particle) (h : ℝ) (hh : 0 < h)
    (i j : ℕ) (hij : i < j) (hjn : j < ps.length) :
    (processedPairs ps (buildCellMap ps h) (h * h)).count (i, j) =
      if InteractingPair ps (h * h) i j then 1 else 0 := by
  have hin : i < ps.length := lt_trans hij hjn
  set cm := buildCellMap ps h with hcmdef
  rw [processedPairs, count_bind]
  have htask : ∀ k : ℤ, (taskProcessedPairs ps cm (h * h) k).count (i, j) =
      if InteractingPair ps (h * h) i j then
        (cellLookup cm k).count i *
          (neighborOffsets.map fun d =>
            (cellLookup cm (taskNeighborKey k d)).count j).sum
      else 0 := by
    intro k
    rw [taskProcessedPairs, count_bind]
    have hd : ∀ d : ℤ × ℤ,
        (((cellLookup cm k).flatMap fun i' =>
          (cellLookup cm (taskNeighborKey k d)).filterMap fun j' =>
            if i' < j' ∧ InteractingPair ps (h * h) i' j' then some (i', j')
            else none).count (i, j)) =
        if InteractingPair ps (h * h) i j then
          (cellLookup cm k).count i *
            (cellLookup cm (taskNeighborKey k d)).count j
        else 0 := by
      intro d
      rw [count_bind,
        List.map_congr_left (fun i' _ => count_pair_filterMap
          (cellLookup cm (taskNeighborKey k d)) i' i j
          (fun a b => a < b ∧ InteractingPair ps (h * h) a b)),
        sum_map_ite_eq_count]
      by_cases hInt : InteractingPair ps (h * h) i j
      · rw [if_pos (show i < j ∧ InteractingPair ps (h * h) i j from ⟨hij, hInt⟩),
          if_pos hInt]
      · rw [if_neg (show ¬ (i < j ∧ InteractingPair ps (h * h) i j) from by
          rintro ⟨-, hc⟩; exact hInt hc), if_neg hInt]
    rw [List.map_congr_left (fun d _ => hd d)]
    by_cases hInt : InteractingPair ps (h * h) i j
    · rw [if_pos hInt,
        List.map_congr_left (fun d (_ : d ∈ neighborOffsets) => if_pos hInt),
        sum_map_mul_left_nat]
    · rw [if_neg hInt, List.sum_eq_zero]
      intro y hy
      obtain ⟨d, -, rfl⟩ := List.mem_map.mp hy
      rw [if_neg hInt]
  rw [List.map_congr_left (fun k _ => htask k)]
  by_cases hInt : InteractingPair ps (h * h) i j
  · rw [if_pos hInt,
      List.map_congr_left (fun k (_ : k ∈ cm.map Prod.fst) => if_pos hInt)]
    set k₀ := posCellKey (ps.getD i default) h with hk₀
    have hk₀mem : k₀ ∈ cm.map Prod.fst := by
      apply key_mem_of_mem_cellLookup (m := cm) (k := k₀) (i := i)
      rw [hcmdef, mem_cellLookup_buildCellMap]
      exact ⟨hin, by rw [← getD_eq_get ps i hin]⟩
    rw [sum_map_eq_of_unique _ _ k₀ (by rw [hcmdef]; exact nodup_keys_buildCellMap ps h)
      hk₀mem ?side]
    case side =>
      intro k hk hkne
      rw [hcmdef, count_cellLookup_buildCellMap ps h k i hin,
        if_neg (show ¬ (posCellKey (ps.getD i default) h = k) from
          fun hc => hkne (hk₀.trans hc).symm), Nat.zero_mul]
    rw [hcmdef, count_cellLookup_buildCellMap ps h k₀ i hin, if_pos hk₀.symm,
      Nat.one_mul]
    rw [List.map_congr_left
      (fun d (_ : d ∈ neighborOffsets) =>
        count_cellLookup_buildCellMap ps h (taskNeighborKey k₀ d) j hjn),
      sum_map_ite_one]
    set ax := posCellX (ps.getD i default) h with hax
    set ay := posCellY (ps.getD i default) h with hay
    set bx := posCellX (ps.getD j default) h with hbx
    set bby := posCellY (ps.getD j default) h with hbby
    have hadj := interactingPair_cells_adjacent hh hInt
    rw [← hax, ← hay, ← hbx, ← hbby] at hadj
    have hnk : ∀ d : ℤ × ℤ, taskNeighborKey k₀ d =
        MakeCellIndex (ax + d.1) (ay + d.2) := by
      intro d
      rw [hk₀, show posCellKey (ps.getD i default) h = MakeCellIndex ax ay from rfl]
      exact makeCellIndex_getCoord_offset ax ay d.1 d.2
    apply countP_eq_one_of_unique _ _ ((bx - ax, bby - ay) : ℤ × ℤ) (by decide)
    · exact mem_neighborOffsets_of_abs_le
        (by rw [abs_sub_comm]; exact hadj.1) (by rw [abs_sub_comm]; exact hadj.2)
    · rw [decide_eq_true_iff, hnk]
      show posCellKey (ps.getD j default) h =
        MakeCellIndex (ax + (bx - ax)) (ay + (bby - ay))
      rw [show ax + (bx - ax) = bx from by ring, show ay + (bby - ay) = bby from by ring]
      rfl
    · intro d hd hpd
      rw [decide_eq_true_iff, hnk] at hpd
      have hd₀key : posCellKey (ps.getD j default) h =
          MakeCellIndex (ax + (bx - ax)) (ay + (bby - ay)) := by
        rw [show ax + (bx - ax) = bx from by ring,
          show ay + (bby - ay) = bby from by ring]
        rfl
      have hkeys : MakeCellIndex (ax + d.1) (ay + d.2) =
          MakeCellIndex (ax + (bx - ax)) (ay + (bby - ay)) := by
        rw [← hpd, ← hd₀key]
      have hdb := abs_le_one_of_mem_neighborOffsets hd
      have habx : |bx - ax| ≤ 1 := by
        have := hadj.1
        rwa [abs_sub_comm] at this
      have haby : |bby - ay| ≤ 1 := by
        have := hadj.2
        rwa [abs_sub_comm] at this
      obtain ⟨h1, h2⟩ := makeCellIndex_offset_inj hdb.1 hdb.2 habx haby hkeys
      exact Prod.ext h1 h2
  · rw [if_neg hInt, List.sum_eq_zero]
    intro y hy
    obtain ⟨k, -, rfl⟩ := List.mem_map.mp hy
    rw [if_neg hInt]

theorem foldl_vadd (accs : List (ℕ → ℝ × ℝ)) (q : ℕ) :
    accs.foldl (fun v a => v + a q) (0, 0) = (accs.map fun a => a q).sum := by
  have main : ∀ (l : List (ℕ → ℝ × ℝ)) (v : ℝ × ℝ),
      l.foldl (fun v a => v + a q) v = v + (l.map fun a => a q).sum := by
    intro l
    induction l with
    | nil => intro v; simp
    | cons x xs ih =>
        intro v
        rw [List.foldl_cons, ih, List.map_cons, List.sum_cons, add_assoc]
  rw [main, show ((0 : ℝ), (0 : ℝ)) = (0 : ℝ × ℝ) from rfl, zero_add]

/-- Index bounds of processed pairs: both ends index real particles. -/
theorem mem_processedPairs_lt (ps : List Particle) (h : ℝ) (irSq : ℝ)
    {ij : ℕ × ℕ} (hmem : ij ∈ processedPairs ps (buildCellMap ps h) irSq) :
    ij.1 < ps.length ∧ ij.2 < ps.length := by
  rw [processedPairs, List.mem_flatMap] at hmem
  obtain ⟨k, -, hk⟩ := hmem
  rw [taskProcessedPairs, List.mem_flatMap] at hk
  obtain ⟨d, -, hd⟩ := hk
  rw [List.mem_flatMap] at hd
  obtain ⟨i', hi', hj⟩ := hd
  rw [List.mem_filterMap] at hj
  obtain ⟨j', hj', hij⟩ := hj
  have hi'lt : i' < ps.length := by
    rw [mem_cellLookup_buildCellMap] at hi'
    obtain ⟨hlt, -⟩ := hi'
    exact hlt
  have hj'lt : j' < ps.length := by
    rw [mem_cellLookup_buildCellMap] at hj'
    obtain ⟨hlt, -⟩ := hj'
    exact hlt
  by_cases hc : i' < j' ∧ InteractingPair ps irSq i' j'
  · rw [if_pos hc] at hij
    obtain rfl := Option.some_injective _ hij
    exact ⟨hi'lt, hj'lt⟩
  · rw [if_neg hc] at hij
    exact Option.noConfusion hij

theorem finsetSum_listSum_swap (n : ℕ) (l : List (ℕ × ℕ))
    (f : ℕ × ℕ → ℕ → ℝ × ℝ) :
    ∑ q ∈ Finset.range n, (l.map fun ij => f ij q).sum =
      (l.map fun ij => ∑ q ∈ Finset.range n, f ij q).sum := by
  induction l with
  | nil => simp
  | cons x xs ih =>
      simp only [List.map_cons, List.sum_cons]
      rw [Finset.sum_add_distrib, ih]

/-- Summed over all particle slots, one processed pair's contribution
cancels: `+F` at slot `i`, `-F` at slot `j`. -/
theorem sum_pairContribution_eq_zero (ps : List Particle) (forceScale sf h : ℝ)
    (n : ℕ) (ij : ℕ × ℕ) (hi : ij.1 < n) (hj : ij.2 < n) :
    (∑ q ∈ Finset.range n, pairContribution ps forceScale sf h ij q) = 0 := by
  unfold pairContribution
  rw [Finset.sum_sub_distrib, Finset.sum_ite_eq', Finset.sum_ite_eq',
    if_pos (Finset.mem_range.mpr hi), if_pos (Finset.mem_range.mpr hj), sub_self]

theorem length_calculateAttractionForces (ps : List Particle) (cm : CellMap)
    (af sf h : ℝ) :
    (CalculateAttractionForces ps cm af sf h).length = ps.length := by
  unfold CalculateAttractionForces
  by_cases h1 : |af| < 1e-6 ∨ h ≤ 0
  · rw [if_pos h1]
  · rw [if_neg h1]
    by_cases h2 : (cm.map Prod.fst).isEmpty
    · rw [if_pos h2]
    · rw [if_neg h2]
      unfold reduceLocalForces
      simp

/-- The net force written by the attraction pass: each particle's force is
its prior force plus the signed sum of the contributions of all processed
pairs involving it. -/
theorem calculateAttractionForces_getD (ps : List Particle) (cm : CellMap)
    (af sf h : ℝ) (q : ℕ) (hq : q < ps.length)
    (haf : 1e-6 ≤ |af|) (hh : 0 < h) :
    (CalculateAttractionForces ps cm af sf h).getD q default =
      { ps.getD q default with
        fx := (ps.getD q default).fx +
          ((processedPairs ps cm (h * h)).map fun ij =>
            pairContribution ps af sf h ij q).sum.1,
        fy := (ps.getD q default).fy +
          ((processedPairs ps cm (h * h)).map fun ij =>
            pairContribution ps af sf h ij q).sum.2 } := by
  unfold CalculateAttractionForces
  rw [if_neg (by push_neg; exact ⟨haf, hh⟩)]
  by_cases hkeys : (cm.map Prod.fst).isEmpty
  · rw [if_pos hkeys]
    have hcm : cm.map Prod.fst = [] := List.isEmpty_iff.mp hkeys
    have hpp : processedPairs ps cm (h * h) = [] := by
      rw [processedPairs, hcm]
      rfl
    rw [hpp]
    simp
  · rw [if_neg hkeys]
    unfold reduceLocalForces
    have hq' : q < (ps.mapIdx fun q p =>
        let d := ((cm.map Prod.fst).map fun k =>
          accumulateCellAttractionForces ps cm af (h * h) sf h k
            fun _ => (0, 0)).foldl (fun v a => v + a q) (0, 0)
        { p with fx := p.fx + d.1, fy := p.fy + d.2 }).length := by
      simpa using hq
    rw [getD_eq_get _ q hq', List.get_eq_getElem, List.getElem_mapIdx,
      getD_eq_get ps q hq, List.get_eq_getElem]
    have hacc : ∀ k : ℤ,
        accumulateCellAttractionForces ps cm af (h * h) sf h k (fun _ => (0, 0)) =
          fun q => ((taskProcessedPairs ps cm (h * h) k).map fun ij =>
            pairContribution ps af sf h ij q).sum := by
      intro k
      rw [accumulateCell_eq_pairs]
      funext q'
      simp
    rw [foldl_vadd]
    have hswap : ((cm.map Prod.fst).map (fun k =>
        (accumulateCellAttractionForces ps cm af (h * h) sf h k
          fun _ => (0, 0)) q)).sum =
        ((processedPairs ps cm (h * h)).map fun ij =>
          pairContribution ps af sf h ij q).sum := by
      rw [processedPairs, sum_map_bind]
      apply congrArg List.sum
      apply List.map_congr_left
      intro k _
      rw [hacc k]
    simp only [List.map_map, Function.comp_def, Fin.val_mk]
    simp only [List.map_map, Function.comp_def] at hswap
    rw [hswap]

/-- The mass-weighted velocity delta that `Integrate`'s velocity phase
applies to one particle. -/
noncomputable def massWeightedVelocityDelta (p : Particle) (dt : ℝ) : ℝ × ℝ :=
  (p.mass * ((integrateVelocity p dt).1 - p.vx),
    p.mass * ((integrateVelocity p dt).2 - p.vy))

theorem massWeighted_eq_force (p : Particle) (dt : ℝ) (hm : 0 < p.mass) :
    massWeightedVelocityDelta p dt = (p.fx * dt, p.fy * dt) := by
  unfold massWeightedVelocityDelta integrateVelocity
  rw [if_pos hm]
  have hm' : p.mass ≠ 0 := ne_of_gt hm
  refine Prod.ext ?_ ?_
  · show p.mass * (p.vx + p.fx / p.mass * dt - p.vx) = p.fx * dt
    field_simp
    ring
  · show p.mass * (p.vy + p.fy / p.mass * dt - p.vy) = p.fy * dt
    field_simp
    ring

theorem getD_mem (ps : List Particle) (q : ℕ) (hq : q < ps.length) :
    ps.getD q default ∈ ps := by
  rw [getD_eq_get ps q hq]
  exact List.get_mem ps q hq

/-- Net mass-weighted velocity delta of the whole particle system after the
attraction pass: exactly zero in real arithmetic. -/
theorem attraction_momentum_zero (ps : List Particle) (af sf h dt : ℝ)
    (haf : 1e-6 ≤ |af|) (hh : 0 < h)
    (hzero : ∀ p ∈ ps, p.fx = 0 ∧ p.fy = 0)
    (hmass : ∀ p ∈ ps, 0 < p.mass) :
    (∑ q ∈ Finset.range
        (CalculateAttractionForces ps (buildCellMap ps h) af sf h).length,
      massWeightedVelocityDelta
        ((CalculateAttractionForces ps (buildCellMap ps h) af sf h).getD q default)
        dt) = 0 := by
  set cm := buildCellMap ps h with hcm
  rw [length_calculateAttractionForces]
  have hterm : ∀ q ∈ Finset.range ps.length,
      massWeightedVelocityDelta
          ((CalculateAttractionForces ps cm af sf h).getD q default) dt =
        (((processedPairs ps cm (h * h)).map fun ij =>
            pairContribution ps af sf h ij q).sum.1 * dt,
          ((processedPairs ps cm (h * h)).map fun ij =>
            pairContribution ps af sf h ij q).sum.2 * dt) := by
    intro q hq
    rw [Finset.mem_range] at hq
    have hp := getD_mem ps q hq
    have hm := hmass _ hp
    have hz := hzero _ hp
    rw [calculateAttractionForces_getD ps cm af sf h q hq haf hh,
      massWeighted_eq_force _ dt (by exact hm)]
    show (((ps.getD q default).fx + _) * dt, ((ps.getD q default).fy + _) * dt) = _
    rw [hz.1, hz.2, zero_add, zero_add]
  rw [Finset.sum_congr rfl hterm]
  have hzero' : ∀ ij ∈ processedPairs ps cm (h * h),
      (∑ q ∈ Finset.range ps.length, pairContribution ps af sf h ij q) = 0 := by
    intro ij hij
    obtain ⟨h1, h2⟩ := mem_processedPairs_lt ps h (h * h) hij
    exact sum_pairContribution_eq_zero ps af sf h ps.length ij h1 h2
  have hsum : (∑ q ∈ Finset.range ps.length,
      ((processedPairs ps cm (h * h)).map fun ij =>
        pairContribution ps af sf h ij q).sum) = 0 := by
    rw [finsetSum_listSum_swap]
    apply List.sum_eq_zero
    intro y hy
    obtain ⟨ij, hij, rfl⟩ := List.mem_map.mp hy
    exact hzero' ij hij
  refine Prod.ext ?_ ?_
  · rw [Prod.fst_sum]
    show (∑ q ∈ Finset.range ps.length,
      ((processedPairs ps cm (h * h)).map fun ij =>
        pairContribution ps af sf h ij q).sum.1 * dt) = 0
    rw [← Finset.sum_mul, ← Prod.fst_sum, hsum]
    norm_num
  · rw [Prod.snd_sum]
    show (∑ q ∈ Finset.range ps.length,
      ((processedPairs ps cm (h * h)).map fun ij =>
        pairContribution ps af sf h ij q).sum.2 * dt) = 0
    rw [← Finset.sum_mul, ← Prod.snd_sum, hsum]
    norm_num

/-- C1: in the attraction-only pass over the freshly rebuilt grid (cell size
= interaction radius), (i) every interacting unordered pair `(i, j)` with
`i < j` is processed exactly once and non-interacting pairs not at all;
(ii) each particle's resulting force is the signed sum of the pair forces —
`+F(i,j)` on slot `i` and `-F(i,j)` on slot `j`, equal magnitude, opposite
sign; and (iii) the sum over all particles of mass times the velocity delta
applied by the integrator's velocity phase is exactly zero in real
arithmetic. -/
theorem C1_attraction_momentum_conservation (ps : List Particle)
    (af sf h dt : ℝ) (haf : 1e-6 ≤ |af|) (hh : 0 < h)
    (hzero : ∀ p ∈ ps, p.fx = 0 ∧ p.fy = 0)
    (hmass : ∀ p ∈ ps, 0 < p.mass) :
    (∀ i j : ℕ, i < j → j < ps.length →
      (processedPairs ps (buildCellMap ps h) (h * h)).count (i, j) =
        if InteractingPair ps (h * h) i j then 1 else 0) ∧
    (∀ q : ℕ, q < ps.length →
      (CalculateAttractionForces ps (buildCellMap ps h) af sf h).getD q default =
        { ps.getD q default with
          fx := ((processedPairs ps (buildCellMap ps h) (h * h)).map fun ij =>
            pairContribution ps af sf h ij q).sum.1,
          fy := ((processedPairs ps (buildCellMap ps h) (h * h)).map fun ij =>
            pairContribution ps af sf h ij q).sum.2 }) ∧
    (∑ q ∈ Finset.range
        (CalculateAttractionForces ps (buildCellMap ps h) af sf h).length,
      massWeightedVelocityDelta
        ((CalculateAttractionForces ps (buildCellMap ps h) af sf h).getD q
          default) dt) = 0 := by
  refine ⟨?_, ?_, attraction_momentum_zero ps af sf h dt haf hh hzero hmass⟩
  · intro i j hij hjn
    exact count_processedPairs ps h hh i j hij hjn
  · intro q hq
    rw [calculateAttractionForces_getD ps (buildCellMap ps h) af sf h q hq haf hh,
      (hzero _ (getD_mem ps q hq)).1, (hzero _ (getD_mem ps q hq)).2,
      zero_add, zero_add]

/-- C1 (witness): two unit-mass particles one unit apart inside the radius
`h = 4`: the pair `(0, 1)` is processed exactly once, and the net
mass-weighted velocity delta of the step is zero. -/
theorem C1_attraction_momentum_conservation_witness :
    (processedPairs [{ x := 1, y := 1, mass := 1 : Particle },
        { x := 2, y := 1, mass := 1 : Particle }]
      (buildCellMap [{ x := 1, y := 1, mass := 1 : Particle },
        { x := 2, y := 1, mass := 1 : Particle }] 4) (4 * 4)).count (0, 1) = 1 ∧
    (∑ q ∈ Finset.range
        (CalculateAttractionForces
          [{ x := 1, y := 1, mass := 1 : Particle },
            { x := 2, y := 1, mass := 1 : Particle }]
          (buildCellMap [{ x := 1, y := 1, mass := 1 : Particle },
            { x := 2, y := 1, mass := 1 : Particle }] 4) 1 0.2 4).length,
      massWeightedVelocityDelta
        ((CalculateAttractionForces
          [{ x := 1, y := 1, mass := 1 : Particle },
            { x := 2, y := 1, mass := 1 : Particle }]
          (buildCellMap [{ x := 1, y := 1, mass := 1 : Particle },
            { x := 2, y := 1, mass := 1 : Particle }] 4) 1 0.2 4).getD q
          default) 1) = 0 := by
  have hmain := C1_attraction_momentum_conservation
    [{ x := 1, y := 1, mass := 1 : Particle },
      { x := 2, y := 1, mass := 1 : Particle }] 1 0.2 4 1
    (by norm_num) (by norm_num)
    (by
      intro p hp
      fin_cases hp <;> exact ⟨rfl, rfl⟩)
    (by
      intro p hp
      fin_cases hp <;> norm_num)
  refine ⟨?_, hmain.2.2⟩
  rw [hmain.1 0 1 (by norm_num) (by norm_num), if_pos ?_]
  unfold InteractingPair KERNEL_EPSILON
  rw [List.getD_cons_succ, List.getD_cons_zero, List.getD_cons_zero]
  norm_num

/-! ## Concurrency substrate (`ParallelConfig`, `parallelFor`) and the grid
constructor (`NewGrid`) -/

/-- `ParallelConfig` with Go `int` fields modelled as `ℤ` (so that invalid,
non-positive requests can be expressed). -/
structure ParallelConfig where
  NumWorkers : ℤ
  MinimumBatchSize : ℤ
deriving DecidableEq

/-- `SetParallelConfig`: the global default is only overwritten by positive
values; non-positive requests are ignored, keeping the current values. -/
def SetParallelConfig (current config : ParallelConfig) : ParallelConfig :=
  { NumWorkers :=
      if config.NumWorkers > 0 then config.NumWorkers else current.NumWorkers,
    MinimumBatchSize :=
      if config.MinimumBatchSize > 0 then config.MinimumBatchSize
      else current.MinimumBatchSize }

/-- The indices `start ≤ i < end` visited by the serial loop. -/
def serialIndices (start endIdx : ℤ) : List ℤ :=
  (List.range (endIdx - start).toNat).map fun i : ℕ => start + (i : ℤ)

/-- The contiguous chunk processed by worker `w` in `parallelFor`:
`[start + w·ipw, min(start + (w+1)·ipw, end))`. -/
def chunkIndices (start endIdx ipw : ℤ) (w : ℕ) : List ℤ :=
  let chunkStart := start + w * ipw
  let chunkEnd := min (chunkStart + ipw) endIdx
  (List.range (chunkEnd - chunkStart).toNat).map fun i : ℕ => chunkStart + (i : ℤ)

/-- The multiset of indices processed by one `parallelFor(start, end, f)`
call, in dispatch order: serial fallback for small batches or a single
worker, otherwise the concatenation of the per-worker chunks.  (Go's `/` on
the non-negative operands involved agrees with `Int./`.) -/
def parallelForIndices (cfg : ParallelConfig) (start endIdx : ℤ) : List ℤ :=
  if endIdx - start ≤ cfg.MinimumBatchSize then serialIndices start endIdx
  else
    let numWorkers0 := cfg.NumWorkers
    let numWorkers1 :=
      if (endIdx - start) / numWorkers0 < 4 then (endIdx - start + 3) / 4
      else numWorkers0
    let numWorkers2 :=
      if numWorkers1 > endIdx - start then endIdx - start else numWorkers1
    if numWorkers2 ≤ 1 then serialIndices start endIdx
    else
      let itemsPerWorker := (endIdx - start + numWorkers2 - 1) / numWorkers2
      (List.range numWorkers2.toNat).foldl
        (fun acc w => acc ++ chunkIndices start endIdx itemsPerWorker w) []

/-- The spatial grid record (`spatial.Grid`); the cell counts use Go's float
division and truncation.  (For `cellSize = 0` the Go float division yields
`±Inf` whose integer conversion is platform-specific; Lean's `x / 0 = 0`
convention is used, a corner no claim depends on.) -/
structure Grid where
  cellMap : CellMap
  cellSize : ℝ
  numCellsX : ℤ
  numCellsY : ℤ

/-- `NewGrid(cellSize, domainX, domainY)`: stores the given cell size
unchanged — it performs no validation or normalisation. -/
noncomputable def NewGrid (cellSize : ℝ) (domainX domainY : ℤ) : Grid :=
  { cellMap := [],
    cellSize := cellSize,
    numCellsX := goTrunc ((domainX : ℝ) / cellSize),
    numCellsY := goTrunc ((domainY : ℝ) / cellSize) }

theorem foldl_append_eq {α β : Type} (l : List α) (f : α → List β)
    (a : List β) :
    l.foldl (fun acc x => acc ++ f x) a = a ++ (l.map f).flatten := by
  induction l generalizing a with
  | nil => simp
  | cons x xs ih => simp [ih, List.append_assoc]

theorem serialIndices_append (s m e : ℤ) (h1 : s ≤ m) (h2 : m ≤ e) :
    serialIndices s m ++ serialIndices m e = serialIndices s e := by
  unfold serialIndices
  have hsplit : (e - s).toNat = (m - s).toNat + (e - m).toNat := by omega
  rw [hsplit, List.range_add, List.map_append, List.map_map]
  congr 1
  apply List.map_congr_left
  intro w hw
  simp only [Function.comp_def]
  omega

theorem chunkIndices_succ (s e ipw : ℤ) (w : ℕ) :
    chunkIndices s e ipw (w + 1) = chunkIndices (s + ipw) e ipw w := by
  unfold chunkIndices
  have harg : s + (↑(w + 1) : ℤ) * ipw = s + ipw + (↑w : ℤ) * ipw := by
    push_cast
    ring
  rw [harg]

/-- The per-worker chunks of `parallelFor`, joined in worker order, cover the
index range exactly once each. -/
theorem chunks_cover (e ipw : ℤ) (hipw : 1 ≤ ipw) :
    ∀ (k : ℕ) (s : ℤ), e - s ≤ (k : ℤ) * ipw →
      ((List.range k).map (chunkIndices s e ipw)).flatten = serialIndices s e := by
  intro k
  induction k with
  | zero =>
      intro s hcov
      have hes : e - s ≤ 0 := by simpa using hcov
      unfold serialIndices
      rw [Int.toNat_of_nonpos hes]
      simp
  | succ k ih =>
      intro s hcov
      simp only [] at ih
      rw [List.range_succ_eq_map, List.map_cons, List.flatten_cons, List.map_map]
      have hshift : chunkIndices s e ipw ∘ Nat.succ = chunkIndices (s + ipw) e ipw := by
        funext w
        exact chunkIndices_succ s e ipw w
      rw [hshift, ih (s + ipw) (by push_cast at hcov ⊢; linarith)]
      unfold chunkIndices
      simp only [Nat.cast_zero, zero_mul, add_zero]
      by_cases hcase : e ≤ s + ipw
      · rw [min_eq_right hcase]
        have hnil : serialIndices (s + ipw) e = [] := by
          unfold serialIndices
          rw [Int.toNat_of_nonpos (by linarith)]
          rfl
        rw [hnil, List.append_nil]
        rfl
      · push_neg at hcase
        rw [min_eq_left (le_of_lt hcase)]
        have hchunk : ((List.range (s + ipw - s).toNat).map fun i : ℕ => s + (i : ℤ)) =
            serialIndices s (s + ipw) := rfl
        rw [hchunk]
        exact serialIndices_append s (s + ipw) e (by linarith) (le_of_lt hcase)

/-- `parallelFor` with any positive worker count processes exactly the
indices `[start, end)`, in order, each exactly once — identical to the
serial loop. -/
theorem parallelForIndices_eq_serial (cfg : ParallelConfig) (start endIdx : ℤ)
    (hw : 0 < cfg.NumWorkers) (hse : start ≤ endIdx) :
    parallelForIndices cfg start endIdx = serialIndices start endIdx := by
  unfold parallelForIndices
  by_cases h1 : endIdx - start ≤ cfg.MinimumBatchSize
  · rw [if_pos h1]
  · rw [if_neg h1]
    set len := endIdx - start with hlen
    set nw1 := if len / cfg.NumWorkers < 4 then (len + 3) / 4 else cfg.NumWorkers
      with hnw1
    set nw2 := if nw1 > len then len else nw1 with hnw2
    by_cases h2 : nw2 ≤ 1
    · rw [if_pos h2]
    · rw [if_neg h2]
      push_neg at h2
      have hnw2len : nw2 ≤ len := by
        rw [hnw2]
        by_cases hc : nw1 > len
        · rw [if_pos hc]
        · rw [if_neg hc]
          exact not_lt.mp hc
      have hlenpos : 0 < len := lt_of_lt_of_le (lt_trans zero_lt_one h2) hnw2len
      have hnw2pos : 0 < nw2 := lt_trans zero_lt_one h2
      set ipw := (len + nw2 - 1) / nw2 with hipw
      have hdiv := Int.ediv_add_emod (len + nw2 - 1) nw2
      have hr1 := Int.emod_nonneg (len + nw2 - 1) (ne_of_gt hnw2pos)
      have hr2 := Int.emod_lt_of_pos (len + nw2 - 1) hnw2pos
      have hcov : len ≤ nw2 * ipw := by
        rw [hipw]
        linarith
      have hipw1 : 1 ≤ ipw := by nlinarith
      rw [foldl_append_eq, List.nil_append]
      have hcast : ((nw2.toNat : ℤ)) = nw2 := Int.toNat_of_nonneg (le_of_lt hnw2pos)
      exact chunks_cover endIdx ipw hipw1 nw2.toNat start
        (by rw [hcast, ← hlen]; linarith)

/-- C9 (counterexample): the grid constructor does not normalise a
non-positive interaction radius — `NewGrid(0, 100, 100)` stores cell size
`0` unchanged, so grid construction with a zero radius does NOT yield a
positive (safe-minimum) cell size. -/
theorem C9_newGrid_no_normalization :
    (NewGrid 0 100 100).cellSize = 0 ∧ ¬ 0 < (NewGrid 0 100 100).cellSize := by
  constructor
  · rfl
  · rw [show (NewGrid 0 100 100).cellSize = 0 from rfl]
    norm_num

/-- C9 (amended): the concurrency substrate does normalise bad tuning —
`SetParallelConfig` ignores a non-positive worker count or batch size,
keeping the previous (positive) values, and `parallelFor` under any positive
worker configuration processes every index of its range exactly once (so no
pass misbehaves after a bad request).  The grid constructor, by contrast,
performs no normalisation: it stores the given non-positive cell size
unchanged. -/
theorem C9_config_normalization (current config : ParallelConfig)
    (start endIdx : ℤ) (r : ℝ) (dx dy : ℤ)
    (hcw : 0 < current.NumWorkers) (hcb : 0 < current.MinimumBatchSize)
    (hse : start ≤ endIdx) :
    0 < (SetParallelConfig current config).NumWorkers ∧
    0 < (SetParallelConfig current config).MinimumBatchSize ∧
    (config.NumWorkers ≤ 0 →
      (SetParallelConfig current config).NumWorkers = current.NumWorkers) ∧
    parallelForIndices (SetParallelConfig current config) start endIdx =
      serialIndices start endIdx ∧
    (NewGrid r dx dy).cellSize = r := by
  have hw : 0 < (SetParallelConfig current config).NumWorkers := by
    unfold SetParallelConfig
    by_cases hc : config.NumWorkers > 0
    · rw [if_pos hc]
      exact hc
    · rw [if_neg hc]
      exact hcw
  refine ⟨hw, ?_, ?_, parallelForIndices_eq_serial _ start endIdx hw hse, rfl⟩
  · unfold SetParallelConfig
    by_cases hc : config.MinimumBatchSize > 0
    · rw [if_pos hc]
      exact hc
    · rw [if_neg hc]
      exact hcb
  · intro hc
    unfold SetParallelConfig
    rw [if_neg (not_lt.mpr hc)]

/-- C9 (witness): a zero-worker, zero-batch request against the default
configuration `(4, 32)` is ignored, and the resulting `parallelFor` over
`[0, 100)` still visits exactly the hundred indices in order; `NewGrid 0`
keeps cell size `0`. -/
theorem C9_config_normalization_witness :
    (SetParallelConfig ⟨4, 32⟩ ⟨0, 0⟩).NumWorkers = 4 ∧
      parallelForIndices (SetParallelConfig ⟨4, 32⟩ ⟨0, 0⟩) 0 100 =
        serialIndices 0 100 ∧
      (NewGrid 0 100 100).cellSize = 0 := by
  have h := C9_config_normalization ⟨4, 32⟩ ⟨0, 0⟩ 0 100 0 100 100
    (by norm_num) (by norm_num) (by norm_num)
  exact ⟨h.2.2.1 (by norm_num), h.2.2.2.1, h.2.2.2.2⟩

/-! ## IEEE-754 special-value model for the attraction pass's NaN guard

`float64` values are modelled as exact rationals plus the special values
`±Inf` and `NaN`.  Finite arithmetic is exact (rounding is not modelled)
except for overflow: any exact magnitude `≥ 2^1024` becomes the
correspondingly signed infinity, which matches IEEE-754 round-to-nearest
(every real of magnitude `≥ 2^1024` rounds to infinity).  Square root is
exact on perfect squares — the only place it is evaluated below.  These
simplifications are sound for the concrete evaluations in this section,
which involve only dyadic rationals and perfect squares. -/

inductive FP where
  | finite (q : ℚ)
  | posInf
  | negInf
  | nan
deriving DecidableEq

namespace FP

def isNaN : FP → Bool
  | nan => true
  | _ => false

def isFinite : FP → Bool
  | finite _ => true
  | _ => false

/-- Smallest exact magnitude that rounds to infinity in `float64`. -/
def OVERFLOW : ℚ := 2 ^ 1024

def ofRat (q : ℚ) : FP :=
  if q ≥ OVERFLOW then posInf else if q ≤ -OVERFLOW then negInf else finite q

def neg : FP → FP
  | finite q => finite (-q)
  | posInf => negInf
  | negInf => posInf
  | nan => nan

def add : FP → FP → FP
  | nan, _ => nan
  | _, nan => nan
  | posInf, negInf => nan
  | negInf, posInf => nan
  | posInf, _ => posInf
  | _, posInf => posInf
  | negInf, _ => negInf
  | _, negInf => negInf
  | finite a, finite b => ofRat (a + b)

def sub (a b : FP) : FP := add a (neg b)

def mul : FP → FP → FP
  | nan, _ => nan
  | _, nan => nan
  | posInf, posInf => posInf
  | posInf, negInf => negInf
  | negInf, posInf => negInf
  | negInf, negInf => posInf
  | posInf, finite b => if 0 < b then posInf else if b < 0 then negInf else nan
  | finite a, posInf => if 0 < a then posInf else if a < 0 then negInf else nan
  | negInf, finite b => if 0 < b then negInf else if b < 0 then posInf else nan
  | finite a, negInf => if 0 < a then negInf else if a < 0 then posInf else nan
  | finite a, finite b => ofRat (a * b)

def div : FP → FP → FP
  | nan, _ => nan
  | _, nan => nan
  | posInf, posInf => nan
  | posInf, negInf => nan
  | negInf, posInf => nan
  | negInf, negInf => nan
  | posInf, finite b => if 0 ≤ b then posInf else negInf
  | negInf, finite b => if 0 ≤ b then negInf else posInf
  | finite _, posInf => finite 0
  | finite _, negInf => finite 0
  | finite a, finite b =>
      if b = 0 then
        if a = 0 then nan else if 0 < a then posInf else negInf
      else ofRat (a / b)

/-- Kernel-computable exact integer square root by bounded search (this
model evaluates square roots only on small perfect squares). -/
def natSqrtLin (n : ℕ) : ℕ :=
  ((List.range (n + 1)).filter fun r => r * r ≤ n).foldr max 0

def sqrt : FP → FP
  | nan => nan
  | posInf => posInf
  | negInf => nan
  | finite q =>
      if q < 0 then nan
      else finite ((natSqrtLin q.num.toNat : ℚ) / (natSqrtLin q.den : ℚ))

/-- `math.Max`: NaN-propagating maximum. -/
def fmax : FP → FP → FP
  | nan, _ => nan
  | _, nan => nan
  | posInf, _ => posInf
  | _, posInf => posInf
  | negInf, b => b
  | a, negInf => a
  | finite a, finite b => finite (max a b)

/-- `x >= y` on floats: false when either operand is NaN. -/
def bge : FP → FP → Bool
  | nan, _ => false
  | _, nan => false
  | posInf, _ => true
  | _, posInf => false
  | _, negInf => true
  | negInf, _ => false
  | finite a, finite b => b ≤ a

/-- `x < y` on floats: false when either operand is NaN. -/
def blt : FP → FP → Bool
  | nan, _ => false
  | _, nan => false
  | _, posInf => true
  | posInf, _ => false
  | negInf, _ => true
  | _, negInf => false
  | finite a, finite b => a < b

end FP

/-- `KERNEL_EPSILON` in the IEEE model (the nearest `float64` to `10⁻⁶`
differs from the exact rational by less than one part in `10¹⁶`; no
comparison below can distinguish them for the inputs considered). -/
def epsFP : FP := FP.finite (1 / 1000000)

/-- One pair's processing in `accumulateCellAttractionForces`, over the
IEEE special-value model, translated guard for guard from the source:
`none` when a guard skips the pair, otherwise `some (forceX, forceY)` — the
components that are accumulated into the task-local accumulator.  The final
guard is the source's `math.IsNaN(forceX) || math.IsNaN(forceY)` check:
it tests NaN only, not infinity. -/
def attractionPairFP (x1 y1 m1 x2 y2 m2 forceScale smoothingFactor h irSq : FP) :
    Option (FP × FP) :=
  let dx := FP.sub x2 x1
  let dy := FP.sub y2 y1
  let distSq := FP.add (FP.mul dx dx) (FP.mul dy dy)
  if FP.bge distSq irSq || FP.blt distSq epsFP then none
  else
    let distance := FP.sqrt distSq
    let smoothedDist := FP.fmax distance (FP.mul smoothingFactor h)
    if FP.blt smoothedDist epsFP then none
    else
      let massFactor := FP.mul m1 m2
      let forceMagnitude :=
        FP.div (FP.mul forceScale massFactor) (FP.mul smoothedDist smoothedDist)
      let G := FP.div forceMagnitude distance
      let forceX := FP.mul G dx
      let forceY := FP.mul G dy
      if forceX.isNaN || forceY.isNaN then none
      else some (forceX, forceY)

/-- Evaluation of one attraction pair in the IEEE model at an overflowing
configuration: unit force scale, masses `2^600` (product overflows to
`+Inf`), positions `(0,0)` and `(3,4)` (distance `5`, inside radius `10`),
smoothing factor `1/5`.  The pair force is `(+Inf, +Inf)` and it passes the
NaN-only guard, so it is accumulated. -/
theorem attractionPairFP_overflow_eval :
    attractionPairFP (.finite 0) (.finite 0) (.finite (2 ^ 600))
        (.finite 3) (.finite 4) (.finite (2 ^ 600))
        (.finite 1) (.finite (1 / 5)) (.finite 10) (.finite 100) =
      some (.posInf, .posInf) := by
  have hdx : FP.sub (.finite 3) (.finite 0) = .finite 3 := by
    show FP.ofRat (3 + -0) = .finite 3
    unfold FP.ofRat FP.OVERFLOW
    norm_num
  have hdy : FP.sub (.finite 4) (.finite 0) = .finite 4 := by
    show FP.ofRat (4 + -0) = .finite 4
    unfold FP.ofRat FP.OVERFLOW
    norm_num
  have hxx : FP.mul (.finite 3) (.finite 3) = .finite 9 := by
    show FP.ofRat (3 * 3) = .finite 9
    unfold FP.ofRat FP.OVERFLOW
    norm_num
  have hyy : FP.mul (.finite 4) (.finite 4) = .finite 16 := by
    show FP.ofRat (4 * 4) = .finite 16
    unfold FP.ofRat FP.OVERFLOW
    norm_num
  have hds : FP.add (.finite 9) (.finite 16) = .finite 25 := by
    show FP.ofRat (9 + 16) = .finite 25
    unfold FP.ofRat FP.OVERFLOW
    norm_num
  have hge : FP.bge (.finite 25) (.finite 100) = false := by
    show decide ((100 : ℚ) ≤ 25) = false
    rw [decide_eq_false (by norm_num : ¬ (100 : ℚ) ≤ 25)]
  have hlt : FP.blt (.finite 25) epsFP = false := by
    show decide ((25 : ℚ) < 1 / 1000000) = false
    rw [decide_eq_false (by norm_num : ¬ (25 : ℚ) < 1 / 1000000)]
  have hsqrt : FP.sqrt (.finite 25) = .finite 5 := by
    show (if (25 : ℚ) < 0 then FP.nan
      else FP.finite ((FP.natSqrtLin (25 : ℚ).num.toNat : ℚ) /
        (FP.natSqrtLin (25 : ℚ).den : ℚ))) = FP.finite 5
    rw [if_neg (by norm_num),
      show (25 : ℚ).num.toNat = 25 from rfl, show (25 : ℚ).den = 1 from rfl,
      show FP.natSqrtLin 25 = 5 from by decide,
      show FP.natSqrtLin 1 = 1 from by decide]
    norm_num
  have hsfh : FP.mul (.finite (1 / 5)) (.finite 10) = .finite 2 := by
    show FP.ofRat (1 / 5 * 10) = .finite 2
    unfold FP.ofRat FP.OVERFLOW
    norm_num
  have hmax : FP.fmax (.finite 5) (.finite 2) = .finite 5 := by
    show FP.finite (max 5 2) = .finite 5
    norm_num
  have hlt5 : FP.blt (.finite 5) epsFP = false := by
    show decide ((5 : ℚ) < 1 / 1000000) = false
    rw [decide_eq_false (by norm_num : ¬ (5 : ℚ) < 1 / 1000000)]
  have hmm : FP.mul (.finite (2 ^ 600)) (.finite (2 ^ 600)) = .posInf := by
    show FP.ofRat (2 ^ 600 * 2 ^ 600) = .posInf
    unfold FP.ofRat FP.OVERFLOW
    rw [if_pos (by norm_num)]
  have hfm : FP.mul (.finite 1) .posInf = .posInf := by
    show (if (0 : ℚ) < 1 then FP.posInf else if (1 : ℚ) < 0 then FP.negInf
      else FP.nan) = FP.posInf
    rw [if_pos (by norm_num)]
  have hsd2 : FP.mul (.finite 5) (.finite 5) = .finite 25 := by
    show FP.ofRat (5 * 5) = .finite 25
    unfold FP.ofRat FP.OVERFLOW
    norm_num
  have hdiv : FP.div .posInf (.finite 25) = .posInf := by
    show (if (0 : ℚ) ≤ 25 then FP.posInf else FP.negInf) = FP.posInf
    rw [if_pos (by norm_num)]
  have hG : FP.div .posInf (.finite 5) = .posInf := by
    show (if (0 : ℚ) ≤ 5 then FP.posInf else FP.negInf) = FP.posInf
    rw [if_pos (by norm_num)]
  have hfx : FP.mul .posInf (.finite 3) = .posInf := by
    show (if (0 : ℚ) < 3 then FP.posInf else if (3 : ℚ) < 0 then FP.negInf
      else FP.nan) = FP.posInf
    rw [if_pos (by norm_num)]
  have hfy : FP.mul .posInf (.finite 4) = .posInf := by
    show (if (0 : ℚ) < 4 then FP.posInf else if (4 : ℚ) < 0 then FP.negInf
      else FP.nan) = FP.posInf
    rw [if_pos (by norm_num)]
  simp only [attractionPairFP]
  rw [hdx, hdy, hxx, hyy, hds, hge, hlt]
  simp only [Bool.or_self, Bool.false_eq_true, if_false]
  rw [hsqrt, hsfh, hmax, hlt5]
  simp only [Bool.false_eq_true, if_false]
  rw [hmm, hfm, hsd2, hdiv, hG, hfx, hfy]
  simp [FP.isNaN]

/-- C7 (counterexample): non-finite values are not always discarded before
accumulation: at the overflowing configuration the accumulated pair-force
components are `+Inf`, which is not finite. -/
theorem C7_inf_accumulated :
    attractionPairFP (.finite 0) (.finite 0) (.finite (2 ^ 600))
        (.finite 3) (.finite 4) (.finite (2 ^ 600))
        (.finite 1) (.finite (1 / 5)) (.finite 10) (.finite 100) =
      some (.posInf, .posInf) ∧
    FP.posInf.isFinite = false :=
  ⟨attractionPairFP_overflow_eval, rfl⟩

/-- C7 (amended): the pass's guard discards exactly the NaN results: any
pair force that IS accumulated has non-NaN components — but they may be
infinite, since infinity passes the `IsNaN` check. -/
theorem C7_nan_guard (x1 y1 m1 x2 y2 m2 forceScale smoothingFactor h irSq : FP)
    (fx fy : FP)
    (hacc : attractionPairFP x1 y1 m1 x2 y2 m2 forceScale smoothingFactor h irSq =
      some (fx, fy)) :
    fx.isNaN = false ∧ fy.isNaN = false := by
  simp only [attractionPairFP] at hacc
  by_cases h1 : (FP.bge (FP.add (FP.mul (FP.sub x2 x1) (FP.sub x2 x1))
      (FP.mul (FP.sub y2 y1) (FP.sub y2 y1))) irSq ||
      FP.blt (FP.add (FP.mul (FP.sub x2 x1) (FP.sub x2 x1))
        (FP.mul (FP.sub y2 y1) (FP.sub y2 y1))) epsFP) = true
  · rw [if_pos h1] at hacc
    exact Option.noConfusion hacc
  · rw [if_neg h1] at hacc
    by_cases h2 : FP.blt (FP.fmax (FP.sqrt (FP.add (FP.mul (FP.sub x2 x1) (FP.sub x2 x1))
        (FP.mul (FP.sub y2 y1) (FP.sub y2 y1))))
        (FP.mul smoothingFactor h)) epsFP = true
    · rw [if_pos h2] at hacc
      exact Option.noConfusion hacc
    · rw [if_neg h2] at hacc
      by_cases h3 : ((FP.mul (FP.div (FP.div (FP.mul forceScale
            (FP.mul m1 m2))
            (FP.mul (FP.fmax (FP.sqrt (FP.add (FP.mul (FP.sub x2 x1) (FP.sub x2 x1))
              (FP.mul (FP.sub y2 y1) (FP.sub y2 y1))))
              (FP.mul smoothingFactor h))
              (FP.fmax (FP.sqrt (FP.add (FP.mul (FP.sub x2 x1) (FP.sub x2 x1))
                (FP.mul (FP.sub y2 y1) (FP.sub y2 y1))))
                (FP.mul smoothingFactor h))))
            (FP.sqrt (FP.add (FP.mul (FP.sub x2 x1) (FP.sub x2 x1))
              (FP.mul (FP.sub y2 y1) (FP.sub y2 y1)))))
          (FP.sub x2 x1)).isNaN ||
        (FP.mul (FP.div (FP.div (FP.mul forceScale
            (FP.mul m1 m2))
            (FP.mul (FP.fmax (FP.sqrt (FP.add (FP.mul (FP.sub x2 x1) (FP.sub x2 x1))
              (FP.mul (FP.sub y2 y1) (FP.sub y2 y1))))
              (FP.mul smoothingFactor h))
              (FP.fmax (FP.sqrt (FP.add (FP.mul (FP.sub x2 x1) (FP.sub x2 x1))
                (FP.mul (FP.sub y2 y1) (FP.sub y2 y1))))
                (FP.mul smoothingFactor h))))
            (FP.sqrt (FP.add (FP.mul (FP.sub x2 x1) (FP.sub x2 x1))
              (FP.mul (FP.sub y2 y1) (FP.sub y2 y1)))))
          (FP.sub y2 y1)).isNaN) = true
      · rw [if_pos h3] at hacc
        exact Option.noConfusion hacc
      · rw [if_neg h3] at hacc
        have hpair := Option.some_injective _ hacc
        obtain ⟨hfx, hfy⟩ := Prod.mk.injEq .. ▸ hpair
        simp only [Bool.or_eq_true] at h3
        push_neg at h3
        constructor
        · rw [← hfx]
          exact Bool.not_eq_true _ ▸ h3.1
        · rw [← hfy]
          exact Bool.not_eq_true _ ▸ h3.2

/-- C7 (witness): the amended guard theorem applied at the overflowing
configuration: the accumulated components are not NaN (they are `+Inf`). -/
theorem C7_nan_guard_witness :
    FP.posInf.isNaN = false ∧ FP.posInf.isNaN = false :=
  C7_nan_guard (.finite 0) (.finite 0) (.finite (2 ^ 600))
    (.finite 3) (.finite 4) (.finite (2 ^ 600))
    (.finite 1) (.finite (1 / 5)) (.finite 10) (.finite 100)
    FP.posInf FP.posInf attractionPairFP_overflow_eval

/-! ## The aggregate simulation (`FluidSim`, `NewFluidSim`, `Step`) -/

/-- `SimParameters` (`simulation/config.go`). -/
structure SimParameters where
  InteractionRadius : ℝ
  SmoothingFactor : ℝ
  DampeningFactor : ℝ
  DragEnabled : Bool
  AttractionFactor : ℝ
  Rho0 : ℝ
  Nu : ℝ
  PressureMultiplier : ℝ
  Dt : ℝ
  Gravity : ℝ
  MouseForce : ℝ
  MouseForceRadius : ℝ

/-- The mature `FluidSim` aggregate.  The embedded grid is represented by
its cell map plus the cell size fixed at construction
(`NewGrid(params.InteractionRadius, …)`). -/
structure FluidSim where
  particles : List Particle
  n : ℕ
  dt : ℝ
  rho0 : ℝ
  nu : ℝ
  domainX : ℝ
  domainY : ℝ
  cellMap : CellMap
  gridCellSize : ℝ
  leftBoundary : BoundaryType
  topBoundary : BoundaryType
  smoothingFactor : ℝ
  dampeningFactor : ℝ
  dragEnabled : Bool
  attractionFactor : ℝ
  interactionRadius : ℝ

/-- One particle of `NewFluidSim`'s initial state, from the five
`rng.Float64()` draws it consumes (position x/y, the small velocity jitter,
and the visual-radius variation); `Mass = π r²`. -/
noncomputable def initParticle (domX domY rho0 : ℝ) (d : ℝ × ℝ × ℝ × ℝ × ℝ) :
    Particle :=
  { x := d.1 * domX,
    y := d.2.1 * domY,
    vx := d.2.2.1 * 0.2 - 0.1,
    vy := d.2.2.2.1 * 0.2 - 0.1,
    density := rho0,
    neighborIndices := [],
    radius := 2 * (0.8 + 0.4 * d.2.2.2.2),
    mass := Real.pi * (2 * (0.8 + 0.4 * d.2.2.2.2)) * (2 * (0.8 + 0.4 * d.2.2.2.2)) }

/-- `NewFluidSim(n, domain, params, rng)`: random still particles, density
initialised to `Rho0`, reflective boundaries, grid cell size =
`params.InteractionRadius`. -/
noncomputable def NewFluidSim (n : ℕ) (domX domY : ℝ) (params : SimParameters)
    (draws : ℕ → ℝ × ℝ × ℝ × ℝ × ℝ) : FluidSim :=
  { particles := (List.range n).map fun i =>
      initParticle domX domY params.Rho0 (draws i),
    n := n,
    dt := params.Dt,
    rho0 := params.Rho0,
    nu := params.Nu,
    domainX := domX,
    domainY := domY,
    cellMap := [],
    gridCellSize := params.InteractionRadius,
    leftBoundary := .Reflective,
    topBoundary := .Reflective,
    smoothingFactor := params.SmoothingFactor,
    dampeningFactor := params.DampeningFactor,
    dragEnabled := params.DragEnabled,
    attractionFactor := params.AttractionFactor,
    interactionRadius := params.InteractionRadius }

/-- Step 0 of `Step`: reset every particle's force accumulator. -/
noncomputable def resetForces (s : FluidSim) : FluidSim :=
  { s with particles := s.particles.map fun p => { p with fx := 0, fy := 0 } }

/-- `PredictPositions(dt)`: advance positions by the pre-force velocities. -/
noncomputable def PredictPositions (s : FluidSim) (dt : ℝ) : FluidSim :=
  { s with particles := s.particles.map fun p =>
      { p with x := p.x + p.vx * dt, y := p.y + p.vy * dt } }

/-- `sim.Grid.Update(sim.Particles)`: rebuild the cell map and write each
particle's cell coordinates back. -/
noncomputable def gridUpdate (s : FluidSim) : FluidSim :=
  { s with particles := assignCells s.particles s.gridCellSize,
           cellMap := buildCellMap s.particles s.gridCellSize }

/-- `GetNeighborParticles(cellX, cellY)`: concatenate the 3×3 block of cell
lists. -/
def GetNeighborParticles (cm : CellMap) (cellX cellY : ℤ) : List ℕ :=
  neighborOffsets.foldl
    (fun acc d => acc ++ cellLookup cm (MakeCellIndex (cellX + d.1) (cellY + d.2)))
    []

/-- `FindNeighbors`: refill each particle's neighbour-index list from the
3×3 grid block, excluding itself, keeping squared distances below the
squared interaction radius. -/
noncomputable def FindNeighborsSim (s : FluidSim) : FluidSim :=
  { s with particles := s.particles.mapIdx fun i p =>
      { p with neighborIndices :=
          (GetNeighborParticles s.cellMap p.cellX p.cellY).filter fun j =>
            decide (¬ i = j ∧
              (p.x - (s.particles.getD j default).x) *
                  (p.x - (s.particles.getD j default).x) +
                (p.y - (s.particles.getD j default).y) *
                  (p.y - (s.particles.getD j default).y) <
                s.interactionRadius * s.interactionRadius) } }

/-- `CalculateDensity` (radius-parameterised kernel module): self term plus
kernel contributions of in-range neighbours.  The `smoothingFactorCoef`
parameter is unused in the source as well. -/
noncomputable def CalculateDensity (ps : List Particle) (idx : ℕ)
    (h smoothingFactorCoef : ℝ) : ℝ :=
  let p := ps.getD idx default
  let hSq := h * h
  (p.neighborIndices.foldl
    (fun density j =>
      if idx = j then density
      else
        let nb := ps.getD j default
        let dx := p.x - nb.x
        let dy := p.y - nb.y
        let distSq := dx * dx + dy * dy
        if distSq < hSq then density + SmoothingKernel (Real.sqrt distSq) h
        else density)
    0) + SmoothingKernel 0 h

/-- `UpdateDensities`. -/
noncomputable def UpdateDensities (s : FluidSim) : FluidSim :=
  { s with particles := s.particles.mapIdx fun i p =>
      { p with density :=
          CalculateDensity s.particles i s.interactionRadius s.smoothingFactor } }

/-- `UpdatePressure(pressureMultiplier)`: the linear equation of state. -/
noncomputable def UpdatePressure (s : FluidSim) (pm : ℝ) : FluidSim :=
  { s with particles := s.particles.map fun p =>
      { p with pressure := pm * (p.density - s.rho0) } }

/-- `ApplyGravityForces(gravity)`: `Force.Y += gravity * Mass` for particles
with positive mass. -/
noncomputable def ApplyGravityForces (s : FluidSim) (gravity : ℝ) : FluidSim :=
  { s with particles := s.particles.map fun p =>
      if p.mass > 0 then { p with fy := p.fy + gravity * p.mass } else p }

/-- `CalculateStandardForces(pressureMultiplier)`: add the pressure,
viscosity and repulsion contributions to each particle's force. -/
noncomputable def CalculateStandardForcesSim (s : FluidSim) (pm : ℝ) : FluidSim :=
  { s with particles := s.particles.mapIdx fun i p =>
      let pf := CalculatePressureForce s.particles s.interactionRadius
        s.smoothingFactor i pm
      let vf := CalculateViscosityForce s.particles s.interactionRadius
        s.smoothingFactor s.nu i
      let rf := CalculateRepulsionForce s.particles s.interactionRadius i pm
      { p with fx := p.fx + pf.1 + vf.1 + rf.1,
               fy := p.fy + pf.2 + vf.2 + rf.2 } }

/-- The simulation-level attraction pass. -/
noncomputable def CalculateAttractionForcesSim (s : FluidSim) : FluidSim :=
  { s with particles := (CalculateAttractionForces s.particles s.cellMap
      s.attractionFactor s.smoothingFactor s.interactionRadius) }

/-- `ApplyDrag(dt)`: uniform velocity dampening, skipping near-still
particles; disabled entirely when `DragEnabled` is false. -/
noncomputable def ApplyDragSim (s : FluidSim) (dt : ℝ) : FluidSim :=
  if s.dragEnabled = false then s
  else
    { s with particles := s.particles.map fun p =>
        let dragFactor := 1 - s.dampeningFactor * dt * 60
        if p.vx * p.vx + p.vy * p.vy < 1e-6 then p
        else { p with vx := p.vx * dragFactor, vy := p.vy * dragFactor } }

/-- `Integrate(dt)` over the whole particle list. -/
noncomputable def IntegrateSim (s : FluidSim) (dt : ℝ) (jit : ℕ → ℝ × ℝ) :
    FluidSim :=
  { s with particles := s.particles.mapIdx fun i p =>
      (integrateParticle p dt s.domainX s.domainY s.leftBoundary s.topBoundary
        (jit i)) }

/-- One full `Step(gravity, pressureMultiplier, dt)`: reset forces, predict,
rebuild grid, find neighbours, densities, pressures, gravity, standard
forces, attraction, drag, integrate.  (The trailing pressure-statistics
reduction does not mutate particles and is omitted.) -/
noncomputable def Step (s : FluidSim) (gravity pm dt : ℝ)
    (jit : ℕ → ℝ × ℝ) : FluidSim :=
  IntegrateSim
    (ApplyDragSim
      (CalculateAttractionForcesSim
        (CalculateStandardForcesSim
          (ApplyGravityForces
            (UpdatePressure
              (UpdateDensities
                (FindNeighborsSim
                  (gridUpdate (PredictPositions (resetForces s) dt))))
              pm)
            gravity)
          pm))
      dt)
    dt jit

/-! ### One gravity-only step: helper lemmas -/

theorem getD_map_particles {α : Type} [Inhabited α] (f : α → Particle)
    (l : List α) (i : ℕ) (hi : i < l.length) :
    (l.map f).getD i default = f (l.getD i default) := by
  have hi' : i < (l.map f).length := by simpa using hi
  rw [List.getD_eq_getElem?_getD, List.getElem?_eq_getElem hi',
    List.getD_eq_getElem?_getD, List.getElem?_eq_getElem hi]
  simp

theorem getD_mapIdx_particles (f : ℕ → Particle → Particle) (ps : List Particle)
    (i : ℕ) (hi : i < ps.length) :
    (ps.mapIdx f).getD i default = f i (ps.getD i default) := by
  have hi' : i < (ps.mapIdx f).length := by simpa using hi
  rw [List.getD_eq_getElem?_getD, List.getElem?_eq_getElem hi',
    List.getD_eq_getElem?_getD, List.getElem?_eq_getElem hi]
  simp

/-- A left fold by a step that never changes the accumulator is constant. -/
theorem foldl_id {α β : Type} (f : β → α → β) (l : List α) (a : β)
    (h : ∀ acc x, f acc x = acc) : l.foldl f a = a := by
  induction l generalizing a with
  | nil => rfl
  | cons x xs ih => rw [List.foldl_cons, h a x]; exact ih a

/-- With a zero pressure multiplier the pressure force vanishes. -/
theorem pressureForce_pm_zero (ps : List Particle) (h sf : ℝ) (idx : ℕ) :
    CalculatePressureForce ps h sf idx 0 = (0, 0) := by
  unfold CalculatePressureForce
  refine foldl_id _ _ _ ?_
  intro acc j
  dsimp only
  split
  · rfl
  · simp

/-- With zero viscosity the viscosity force vanishes. -/
theorem viscosityForce_nu_zero (ps : List Particle) (h sf : ℝ) (idx : ℕ) :
    CalculateViscosityForce ps h sf 0 idx = (0, 0) := by
  unfold CalculateViscosityForce
  refine foldl_id _ _ _ ?_
  intro acc j
  dsimp only
  split
  · rfl
  · simp

/-- With a zero pressure multiplier the repulsion force vanishes. -/
theorem repulsionForce_pm_zero (ps : List Particle) (h : ℝ) (idx : ℕ) :
    CalculateRepulsionForce ps h idx 0 = (0, 0) := by
  unfold CalculateRepulsionForce
  refine foldl_id _ _ _ ?_
  intro acc j
  dsimp only
  split
  · rfl
  · split
    · rfl
    · simp

/-- With a zero attraction factor the attraction pass is skipped by its
`|attractionFactor| < 1e-6` guard. -/
theorem calculateAttractionForces_zero (ps : List Particle) (cm : CellMap)
    (sf h : ℝ) : CalculateAttractionForces ps cm 0 sf h = ps := by
  unfold CalculateAttractionForces
  rw [if_pos (Or.inl (by rw [abs_zero]; norm_num))]

theorem calcAttractionSim_zero (t : FluidSim) (h : t.attractionFactor = 0) :
    CalculateAttractionForcesSim t = t := by
  unfold CalculateAttractionForcesSim
  rw [show (CalculateAttractionForces t.particles t.cellMap t.attractionFactor
      t.smoothingFactor t.interactionRadius) = t.particles from by
    rw [h]; exact calculateAttractionForces_zero _ _ _ _]

theorem applyDragSim_disabled (t : FluidSim) (dt : ℝ)
    (h : t.dragEnabled = false) : ApplyDragSim t dt = t := by
  unfold ApplyDragSim
  rw [if_pos h]

theorem resetForces_particles (t : FluidSim) :
    (resetForces t).particles =
      t.particles.map fun p => { p with fx := 0, fy := 0 } := rfl

theorem predictPositions_particles (t : FluidSim) (dt : ℝ) :
    (PredictPositions t dt).particles =
      t.particles.map fun p =>
        { p with x := p.x + p.vx * dt, y := p.y + p.vy * dt } := rfl

theorem gridUpdate_particles (t : FluidSim) :
    (gridUpdate t).particles =
      t.particles.map fun p =>
        { p with cellX := posCellX p t.gridCellSize,
                 cellY := posCellY p t.gridCellSize } := rfl

theorem findNeighborsSim_particles (t : FluidSim) :
    (FindNeighborsSim t).particles =
      t.particles.mapIdx fun i p =>
        { p with neighborIndices :=
            (GetNeighborParticles t.cellMap p.cellX p.cellY).filter fun j =>
              decide (¬ i = j ∧
                (p.x - (t.particles.getD j default).x) *
                    (p.x - (t.particles.getD j default).x) +
                  (p.y - (t.particles.getD j default).y) *
                    (p.y - (t.particles.getD j default).y) <
                  t.interactionRadius * t.interactionRadius) } := rfl

theorem updateDensities_particles (t : FluidSim) :
    (UpdateDensities t).particles =
      t.particles.mapIdx fun i p =>
        { p with density :=
            (CalculateDensity t.particles i t.interactionRadius
              t.smoothingFactor) } := rfl

theorem updatePressure_particles (t : FluidSim) (pm : ℝ) :
    (UpdatePressure t pm).particles =
      t.particles.map fun p =>
        { p with pressure := pm * (p.density - t.rho0) } := rfl

theorem applyGravityForces_particles (t : FluidSim) (g : ℝ) :
    (ApplyGravityForces t g).particles =
      t.particles.map fun p =>
        if p.mass > 0 then { p with fy := p.fy + g * p.mass } else p := rfl

theorem calculateStandardForcesSim_particles (t : FluidSim) (pm : ℝ) :
    (CalculateStandardForcesSim t pm).particles =
      t.particles.mapIdx fun i p =>
        { p with
            fx := p.fx +
              (CalculatePressureForce t.particles t.interactionRadius
                t.smoothingFactor i pm).1 +
              (CalculateViscosityForce t.particles t.interactionRadius
                t.smoothingFactor t.nu i).1 +
              (CalculateRepulsionForce t.particles t.interactionRadius i pm).1,
            fy := p.fy +
              (CalculatePressureForce t.particles t.interactionRadius
                t.smoothingFactor i pm).2 +
              (CalculateViscosityForce t.particles t.interactionRadius
                t.smoothingFactor t.nu i).2 +
              (CalculateRepulsionForce t.particles t.interactionRadius i pm).2 } := rfl

theorem integrateSim_particles (t : FluidSim) (dt : ℝ) (jit : ℕ → ℝ × ℝ) :
    (IntegrateSim t dt jit).particles =
      t.particles.mapIdx fun i p =>
        (integrateParticle p dt t.domainX t.domainY t.leftBoundary
          t.topBoundary (jit i)) := rfl

/-- Any boundary resolution leaves the position inside `[0, limit]` provided
the limit exceeds the `2·EPSILON` push-out. -/
theorem handleBoundary_position_bounds (pos vel limit : ℝ) (bt : BoundaryType)
    (r : ℝ) (hlim : 0.002 ≤ limit) :
    0 ≤ (HandleBoundary pos vel limit bt r).1 ∧
      (HandleBoundary pos vel limit bt r).1 ≤ limit := by
  unfold HandleBoundary
  by_cases h1 : pos ≥ limit
  · rw [if_pos h1]
    cases bt with
    | Reflective =>
        refine ⟨?_, ?_⟩ <;> (show _ ≤ _) <;> norm_num [EPSILON] <;> linarith
    | Periodic => exact ⟨le_refl 0, by linarith⟩
  · rw [if_neg h1]
    by_cases h2 : pos ≤ 0
    · rw [if_pos h2]
      cases bt with
      | Reflective =>
          refine ⟨?_, ?_⟩ <;> (show _ ≤ _) <;> norm_num [EPSILON] <;> linarith
      | Periodic => exact ⟨by linarith, le_refl limit⟩
    · rw [if_neg h2]
      exact ⟨le_of_lt (not_le.mp h2), le_of_lt (not_le.mp h1)⟩

/-- One gravity-only step, seen from particle `i`: with the pressure
multiplier zero, viscosity zero, attraction factor zero and drag disabled,
the step adds exactly `g·dt` to the vertical velocity, leaves the horizontal
velocity unchanged, and moves the particle by the predicted displacement
plus the post-update velocity times `dt`, before boundary resolution. -/
theorem step_gravity_only (s : FluidSim) (g dt : ℝ) (jit : ℕ → ℝ × ℝ) (i : ℕ)
    (hi : i < s.particles.length)
    (hnu : s.nu = 0) (haf : s.attractionFactor = 0)
    (hdrag : s.dragEnabled = false)
    (hm : 0 < (s.particles.getD i default).mass) :
    ((Step s g 0 dt jit).particles.getD i default).x =
        (HandleBoundary
          ((s.particles.getD i default).x + (s.particles.getD i default).vx * dt
            + (s.particles.getD i default).vx * dt)
          ((s.particles.getD i default).vx) s.domainX s.leftBoundary
          (jit i).1).1 ∧
      ((Step s g 0 dt jit).particles.getD i default).vx =
        (HandleBoundary
          ((s.particles.getD i default).x + (s.particles.getD i default).vx * dt
            + (s.particles.getD i default).vx * dt)
          ((s.particles.getD i default).vx) s.domainX s.leftBoundary
          (jit i).1).2 ∧
      ((Step s g 0 dt jit).particles.getD i default).y =
        (HandleBoundary
          ((s.particles.getD i default).y + (s.particles.getD i default).vy * dt
            + ((s.particles.getD i default).vy + g * dt) * dt)
          ((s.particles.getD i default).vy + g * dt) s.domainY s.topBoundary
          (jit i).2).1 ∧
      ((Step s g 0 dt jit).particles.getD i default).vy =
        (HandleBoundary
          ((s.particles.getD i default).y + (s.particles.getD i default).vy * dt
            + ((s.particles.getD i default).vy + g * dt) * dt)
          ((s.particles.getD i default).vy + g * dt) s.domainY s.topBoundary
          (jit i).2).2 := by
  unfold Step
  set t1 := resetForces s with ht1
  set t2 := PredictPositions t1 dt with ht2
  set t3 := gridUpdate t2 with ht3
  set t4 := FindNeighborsSim t3 with ht4
  set t5 := UpdateDensities t4 with ht5
  set t6 := UpdatePressure t5 0 with ht6
  set t7 := ApplyGravityForces t6 g with ht7
  set t8 := CalculateStandardForcesSim t7 0 with ht8
  have l1 : i < t1.particles.length := by
    rw [ht1, resetForces_particles, List.length_map]; exact hi
  have l2 : i < t2.particles.length := by
    rw [ht2, predictPositions_particles, List.length_map]; exact l1
  have l3 : i < t3.particles.length := by
    rw [ht3, gridUpdate_particles, List.length_map]; exact l2
  have l4 : i < t4.particles.length := by
    rw [ht4, findNeighborsSim_particles, List.length_mapIdx]; exact l3
  have l5 : i < t5.particles.length := by
    rw [ht5, updateDensities_particles, List.length_mapIdx]; exact l4
  have l6 : i < t6.particles.length := by
    rw [ht6, updatePressure_particles, List.length_map]; exact l5
  have l7 : i < t7.particles.length := by
    rw [ht7, applyGravityForces_particles, List.length_map]; exact l6
  have l8 : i < t8.particles.length := by
    rw [ht8, calculateStandardForcesSim_particles, List.length_mapIdx]; exact l7
  have e1 : t1.particles.getD i default =
      { s.particles.getD i default with fx := 0, fy := 0 } := by
    rw [ht1, resetForces_particles, getD_map_particles _ _ i hi]
  have e2 : t2.particles.getD i default =
      { t1.particles.getD i default with
        x := (t1.particles.getD i default).x +
          (t1.particles.getD i default).vx * dt,
        y := (t1.particles.getD i default).y +
          (t1.particles.getD i default).vy * dt } := by
    rw [ht2, predictPositions_particles, getD_map_particles _ _ i l1]
  have e3 : t3.particles.getD i default =
      { t2.particles.getD i default with
        cellX := posCellX (t2.particles.getD i default) t2.gridCellSize,
        cellY := posCellY (t2.particles.getD i default) t2.gridCellSize } := by
    rw [ht3, gridUpdate_particles, getD_map_particles _ _ i l2]
  have e4 : t4.particles.getD i default =
      { t3.particles.getD i default with
        neighborIndices :=
          (GetNeighborParticles t3.cellMap
              (t3.particles.getD i default).cellX
              (t3.particles.getD i default).cellY).filter fun j =>
            decide (¬ i = j ∧
              ((t3.particles.getD i default).x -
                    (t3.particles.getD j default).x) *
                  ((t3.particles.getD i default).x -
                    (t3.particles.getD j default).x) +
                ((t3.particles.getD i default).y -
                    (t3.particles.getD j default).y) *
                  ((t3.particles.getD i default).y -
                    (t3.particles.getD j default).y) <
                t3.interactionRadius * t3.interactionRadius) } := by
    rw [ht4, findNeighborsSim_particles, getD_mapIdx_particles _ _ i l3]
  have e5 : t5.particles.getD i default =
      { t4.particles.getD i default with
        density := (CalculateDensity t4.particles i t4.interactionRadius
          t4.smoothingFactor) } := by
    rw [ht5, updateDensities_particles, getD_mapIdx_particles _ _ i l4]
  have e6 : t6.particles.getD i default =
      { t5.particles.getD i default with
        pressure := 0 * ((t5.particles.getD i default).density - t5.rho0) } := by
    rw [ht6, updatePressure_particles, getD_map_particles _ _ i l5]
  have hmass6 : (t6.particles.getD i default).mass =
      (s.particles.getD i default).mass := by
    rw [e6, e5, e4, e3, e2, e1]
  have e7 : t7.particles.getD i default =
      { t6.particles.getD i default with
        fy := (t6.particles.getD i default).fy +
          g * (t6.particles.getD i default).mass } := by
    rw [ht7, applyGravityForces_particles, getD_map_particles _ _ i l6]
    rw [if_pos (show (t6.particles.getD i default).mass > 0 from by
      rw [hmass6]; exact hm)]
  have e8 : t8.particles.getD i default = t7.particles.getD i default := by
    rw [ht8, calculateStandardForcesSim_particles,
      getD_mapIdx_particles _ _ i l7,
      pressureForce_pm_zero, repulsionForce_pm_zero,
      show t7.nu = (0:ℝ) from hnu, viscosityForce_nu_zero]
    simp
  have hQx : (t8.particles.getD i default).x =
      (s.particles.getD i default).x + (s.particles.getD i default).vx * dt := by
    rw [e8, e7, e6, e5, e4, e3, e2, e1]
  have hQy : (t8.particles.getD i default).y =
      (s.particles.getD i default).y + (s.particles.getD i default).vy * dt := by
    rw [e8, e7, e6, e5, e4, e3, e2, e1]
  have hQvx : (t8.particles.getD i default).vx =
      (s.particles.getD i default).vx := by
    rw [e8, e7, e6, e5, e4, e3, e2, e1]
  have hQvy : (t8.particles.getD i default).vy =
      (s.particles.getD i default).vy := by
    rw [e8, e7, e6, e5, e4, e3, e2, e1]
  have hQfx : (t8.particles.getD i default).fx = 0 := by
    rw [e8, e7, e6, e5, e4, e3, e2, e1]
  have hQfy : (t8.particles.getD i default).fy =
      0 + g * (s.particles.getD i default).mass := by
    rw [e8, e7, e6, e5, e4, e3, e2, e1]
  have hQm : (t8.particles.getD i default).mass =
      (s.particles.getD i default).mass := by
    rw [e8, e7]; exact hmass6
  have h9 : CalculateAttractionForcesSim t8 = t8 := calcAttractionSim_zero t8 haf
  rw [h9, applyDragSim_disabled t8 dt hdrag, integrateSim_particles,
    getD_mapIdx_particles _ _ i l8]
  have hv : integrateVelocity (t8.particles.getD i default) dt =
      ((s.particles.getD i default).vx,
        (s.particles.getD i default).vy + g * dt) := by
    unfold integrateVelocity
    rw [if_pos (show (t8.particles.getD i default).mass > 0 from by
      rw [hQm]; exact hm)]
    refine Prod.ext ?_ ?_
    · show (t8.particles.getD i default).vx +
        (t8.particles.getD i default).fx /
          (t8.particles.getD i default).mass * dt = _
      rw [hQvx, hQfx, zero_div, zero_mul, add_zero]
    · show (t8.particles.getD i default).vy +
        (t8.particles.getD i default).fy /
          (t8.particles.getD i default).mass * dt = _
      rw [hQvy, hQfy, hQm, zero_add, mul_div_assoc, div_self (ne_of_gt hm),
        mul_one]
  unfold integrateParticle
  refine ⟨?_, ?_, ?_, ?_⟩
  · show (HandleBoundary ((t8.particles.getD i default).x +
        (integrateVelocity (t8.particles.getD i default) dt).1 * dt)
        (integrateVelocity (t8.particles.getD i default) dt).1
        t8.domainX t8.leftBoundary (jit i).1).1 = _
    rw [hv, hQx]
    rfl
  · show (HandleBoundary ((t8.particles.getD i default).x +
        (integrateVelocity (t8.particles.getD i default) dt).1 * dt)
        (integrateVelocity (t8.particles.getD i default) dt).1
        t8.domainX t8.leftBoundary (jit i).1).2 = _
    rw [hv, hQx]
    rfl
  · show (HandleBoundary ((t8.particles.getD i default).y +
        (integrateVelocity (t8.particles.getD i default) dt).2 * dt)
        (integrateVelocity (t8.particles.getD i default) dt).2
        t8.domainY t8.topBoundary (jit i).2).1 = _
    rw [hv, hQy]
    rfl
  · show (HandleBoundary ((t8.particles.getD i default).y +
        (integrateVelocity (t8.particles.getD i default) dt).2 * dt)
        (integrateVelocity (t8.particles.getD i default) dt).2
        t8.domainY t8.topBoundary (jit i).2).2 = _
    rw [hv, hQy]
    rfl

theorem length_CalculateAttractionForces (ps : List Particle) (cm : CellMap)
    (af sf h : ℝ) :
    (CalculateAttractionForces ps cm af sf h).length = ps.length := by
  unfold CalculateAttractionForces reduceLocalForces
  split
  · rfl
  · dsimp only
    split
    · rfl
    · simp

theorem applyDragSim_fields (t : FluidSim) (dt : ℝ) :
    (ApplyDragSim t dt).domainX = t.domainX ∧
    (ApplyDragSim t dt).domainY = t.domainY ∧
    (ApplyDragSim t dt).leftBoundary = t.leftBoundary ∧
    (ApplyDragSim t dt).topBoundary = t.topBoundary ∧
    (ApplyDragSim t dt).particles.length = t.particles.length := by
  unfold ApplyDragSim
  split
  · exact ⟨rfl, rfl, rfl, rfl, rfl⟩
  · exact ⟨rfl, rfl, rfl, rfl, by simp⟩

/-- Whatever the forces, one `Step` never leaves a particle outside the
`[0, domainX] × [0, domainY]` box (the integrator's boundary resolution runs
last), provided each domain extent is at least the `2·EPSILON` push-out. -/
theorem step_positions_bounded (s : FluidSim) (g pm dt : ℝ) (jit : ℕ → ℝ × ℝ)
    (i : ℕ) (hi : i < s.particles.length)
    (hdx : 0.002 ≤ s.domainX) (hdy : 0.002 ≤ s.domainY) :
    (0 ≤ ((Step s g pm dt jit).particles.getD i default).x ∧
      ((Step s g pm dt jit).particles.getD i default).x ≤ s.domainX) ∧
    (0 ≤ ((Step s g pm dt jit).particles.getD i default).y ∧
      ((Step s g pm dt jit).particles.getD i default).y ≤ s.domainY) := by
  unfold Step
  set t8 := CalculateStandardForcesSim (ApplyGravityForces (UpdatePressure
    (UpdateDensities (FindNeighborsSim (gridUpdate
      (PredictPositions (resetForces s) dt)))) pm) g) pm with ht8
  set t9 := CalculateAttractionForcesSim t8 with ht9
  set t10 := ApplyDragSim t9 dt with ht10
  have l8 : t8.particles.length = s.particles.length := by
    rw [ht8, calculateStandardForcesSim_particles]
    simp [applyGravityForces_particles, updatePressure_particles,
      updateDensities_particles, findNeighborsSim_particles,
      gridUpdate_particles, predictPositions_particles, resetForces_particles]
  have l9 : t9.particles.length = s.particles.length := by
    rw [ht9]
    show (CalculateAttractionForces t8.particles t8.cellMap t8.attractionFactor
      t8.smoothingFactor t8.interactionRadius).length = _
    rw [length_CalculateAttractionForces]
    exact l8
  have l10 : i < t10.particles.length := by
    rw [ht10, (applyDragSim_fields t9 dt).2.2.2.2, l9]; exact hi
  rw [integrateSim_particles, getD_mapIdx_particles _ _ i l10]
  have hdX : t10.domainX = s.domainX := by
    rw [ht10]; exact (applyDragSim_fields t9 dt).1
  have hdY : t10.domainY = s.domainY := by
    rw [ht10]; exact (applyDragSim_fields t9 dt).2.1
  unfold integrateParticle
  refine ⟨?_, ?_⟩
  · have hb := handleBoundary_position_bounds
      ((t10.particles.getD i default).x +
        (integrateVelocity (t10.particles.getD i default) dt).1 * dt)
      (integrateVelocity (t10.particles.getD i default) dt).1
      t10.domainX t10.leftBoundary (jit i).1 (by rw [hdX]; exact hdx)
    rw [hdX] at hb ⊢
    exact hb
  · have hb := handleBoundary_position_bounds
      ((t10.particles.getD i default).y +
        (integrateVelocity (t10.particles.getD i default) dt).2 * dt)
      (integrateVelocity (t10.particles.getD i default) dt).2
      t10.domainY t10.topBoundary (jit i).2 (by rw [hdY]; exact hdy)
    rw [hdY] at hb ⊢
    exact hb

theorem newFluidSim_getD (n : ℕ) (domX domY : ℝ) (params : SimParameters)
    (draws : ℕ → ℝ × ℝ × ℝ × ℝ × ℝ) (i : ℕ) (hi : i < n) :
    (NewFluidSim n domX domY params draws).particles.getD i default =
      initParticle domX domY params.Rho0 (draws i) := by
  show ((List.range n).map fun j =>
    initParticle domX domY params.Rho0 (draws j)).getD i default = _
  rw [getD_map_particles _ _ i (by simpa using hi)]
  have hr : (List.range n).getD i default = i := by
    rw [List.getD_eq_getElem?_getD, List.getElem?_eq_getElem (by simpa using hi)]
    simp
  rw [hr]

theorem newFluidSim_length (n : ℕ) (domX domY : ℝ) (params : SimParameters)
    (draws : ℕ → ℝ × ℝ × ℝ × ℝ × ℝ) :
    (NewFluidSim n domX domY params draws).particles.length = n := by
  show ((List.range n).map fun j =>
    initParticle domX domY params.Rho0 (draws j)).length = n
  simp

/-- A non-negative radius draw gives a strictly positive mass
`π·r²` with `r = 2(0.8 + 0.4·draw) ≥ 1.6`. -/
theorem initParticle_mass_pos (domX domY rho0 : ℝ) (d : ℝ × ℝ × ℝ × ℝ × ℝ)
    (h5 : 0 ≤ d.2.2.2.2) : 0 < (initParticle domX domY rho0 d).mass := by
  show 0 < Real.pi * (2 * (0.8 + 0.4 * d.2.2.2.2)) * (2 * (0.8 + 0.4 * d.2.2.2.2))
  have hq : 0 ≤ 0.4 * d.2.2.2.2 := mul_nonneg (by norm_num) h5
  have hr : (0:ℝ) < 2 * (0.8 + 0.4 * d.2.2.2.2) := by linarith
  exact mul_pos (mul_pos Real.pi_pos hr) hr

/-- The parameter set of the C6 scenario: reference density 1000, all
forces except gravity disabled (zero pressure multiplier is passed to `Step`
separately), drag off. -/
noncomputable def C6params : SimParameters :=
  { InteractionRadius := 25, SmoothingFactor := 0.15, DampeningFactor := 0.1,
    DragEnabled := false, AttractionFactor := 0, Rho0 := 1000, Nu := 0,
    PressureMultiplier := 20000, Dt := 0.0008, Gravity := -9.81,
    MouseForce := 500, MouseForceRadius := 50 }

/-- A constant draw stream: particle at (50,50), zero horizontal jitter,
vertical jitter `3/4·0.2 − 0.1 = 0.05`, radius draw `1/2`. -/
noncomputable def C6draws : ℕ → ℝ × ℝ × ℝ × ℝ × ℝ :=
  fun _ => (1/2, 1/2, 1/2, 3/4, 1/2)

/-- Boundary jitter draws (not consumed on the interior path). -/
def C6jit : ℕ → ℝ × ℝ := fun _ => (0, 0)

/-- C6 (counterexample): in the claim's scenario (domain 100×100, reference
density 1000, every force but gravity disabled, gravity = −9.81,
dt = 0.0008) a particle whose initial-velocity jitter draw is `3/4` ends the
first step with a y-velocity a full `0.05` away from `−9.81·dt` — far beyond
floating-point tolerance — because `NewFluidSim` gives every particle a
random initial velocity in `[−0.1, 0.1)` rather than zero. -/
theorem C6_velocity_jitter_counterexample :
    C6params.Rho0 = 1000 ∧ C6params.Nu = 0 ∧ C6params.AttractionFactor = 0 ∧
    C6params.DragEnabled = false ∧
    |((Step (NewFluidSim 100 100 100 C6params C6draws) (-9.81) 0 0.0008
        C6jit).particles.getD 0 default).vy - (-9.81) * 0.0008| = 0.05 := by
  refine ⟨rfl, rfl, rfl, rfl, ?_⟩
  have hi : (0:ℕ) < (NewFluidSim 100 100 100 C6params C6draws).particles.length := by
    rw [newFluidSim_length]; norm_num
  have hP := newFluidSim_getD 100 100 100 C6params C6draws 0 (by norm_num)
  have hm : 0 < ((NewFluidSim 100 100 100 C6params
      C6draws).particles.getD 0 default).mass := by
    rw [hP]
    exact initParticle_mass_pos _ _ _ _ (by norm_num [C6draws])
  have hsvy := (step_gravity_only (NewFluidSim 100 100 100 C6params C6draws)
    (-9.81) 0.0008 C6jit 0 hi rfl rfl rfl hm).2.2.2
  rw [hP] at hsvy
  rw [show (NewFluidSim 100 100 100 C6params C6draws).domainY = (100:ℝ)
    from rfl] at hsvy
  have h₀ : (0:ℝ) < (initParticle 100 100 C6params.Rho0 (C6draws 0)).y +
      (initParticle 100 100 C6params.Rho0 (C6draws 0)).vy * 0.0008 +
      ((initParticle 100 100 C6params.Rho0 (C6draws 0)).vy +
        (-9.81) * 0.0008) * 0.0008 := by
    norm_num [initParticle, C6draws]
  have h₁ : (initParticle 100 100 C6params.Rho0 (C6draws 0)).y +
      (initParticle 100 100 C6params.Rho0 (C6draws 0)).vy * 0.0008 +
      ((initParticle 100 100 C6params.Rho0 (C6draws 0)).vy +
        (-9.81) * 0.0008) * 0.0008 < 100 := by
    norm_num [initParticle, C6draws]
  rw [handleBoundary_interior _ _ _ _ _ h₀ h₁] at hsvy
  rw [hsvy]
  dsimp only
  have hv2 : (initParticle 100 100 C6params.Rho0 (C6draws 0)).vy = 0.05 := by
    norm_num [initParticle, C6draws]
  rw [hv2, show (0.05:ℝ) + (-9.81) * 0.0008 - (-9.81) * 0.0008 = 0.05 from by
    ring]
  exact abs_of_nonneg (by norm_num)

/-- C6 (amended): starting from `NewFluidSim` with domain 100×100, reference
density 1000, zero viscosity, zero attraction factor, drag disabled and a
zero pressure multiplier, one `Step` with gravity −9.81 leaves every
particle's position inside the box `[0,100]×[0,100]`, and any particle whose
trajectory stays strictly inside the box ends the step with `vx` unchanged
and `vy` equal to its initial random jitter `draw·0.2 − 0.1` plus exactly
`−9.81·dt` — not `−9.81·dt` itself, because the initial velocities are
jittered in `[−0.1, 0.1)`. -/
theorem C6_gravity_step (params : SimParameters) (n : ℕ)
    (draws : ℕ → ℝ × ℝ × ℝ × ℝ × ℝ) (dt : ℝ) (jit : ℕ → ℝ × ℝ) (i : ℕ)
    (hn : i < n) (hrho : params.Rho0 = 1000)
    (hnu : params.Nu = 0) (haf : params.AttractionFactor = 0)
    (hdrag : params.DragEnabled = false)
    (hr5 : 0 ≤ (draws i).2.2.2.2)
    (hx0 : 0 < (draws i).1 * 100 + ((draws i).2.2.1 * 0.2 - 0.1) * dt
      + ((draws i).2.2.1 * 0.2 - 0.1) * dt)
    (hx1 : (draws i).1 * 100 + ((draws i).2.2.1 * 0.2 - 0.1) * dt
      + ((draws i).2.2.1 * 0.2 - 0.1) * dt < 100)
    (hy0 : 0 < (draws i).2.1 * 100 + ((draws i).2.2.2.1 * 0.2 - 0.1) * dt
      + (((draws i).2.2.2.1 * 0.2 - 0.1) + (-9.81) * dt) * dt)
    (hy1 : (draws i).2.1 * 100 + ((draws i).2.2.2.1 * 0.2 - 0.1) * dt
      + (((draws i).2.2.2.1 * 0.2 - 0.1) + (-9.81) * dt) * dt < 100) :
    ((Step (NewFluidSim n 100 100 params draws) (-9.81) 0 dt
        jit).particles.getD i default).vy =
      ((draws i).2.2.2.1 * 0.2 - 0.1) + (-9.81) * dt ∧
    ((Step (NewFluidSim n 100 100 params draws) (-9.81) 0 dt
        jit).particles.getD i default).vx = (draws i).2.2.1 * 0.2 - 0.1 ∧
    (∀ j, j < n →
      (0 ≤ ((Step (NewFluidSim n 100 100 params draws) (-9.81) 0 dt
          jit).particles.getD j default).x ∧
        ((Step (NewFluidSim n 100 100 params draws) (-9.81) 0 dt
          jit).particles.getD j default).x ≤ 100) ∧
      (0 ≤ ((Step (NewFluidSim n 100 100 params draws) (-9.81) 0 dt
          jit).particles.getD j default).y ∧
        ((Step (NewFluidSim n 100 100 params draws) (-9.81) 0 dt
          jit).particles.getD j default).y ≤ 100)) := by
  set s0 := NewFluidSim n 100 100 params draws with hs0
  have hP : s0.particles.getD i default =
      initParticle 100 100 params.Rho0 (draws i) :=
    newFluidSim_getD n 100 100 params draws i hn
  have hi : i < s0.particles.length := by
    rw [hs0, newFluidSim_length]; exact hn
  have hm : 0 < (s0.particles.getD i default).mass := by
    rw [hP]; exact initParticle_mass_pos _ _ _ _ hr5
  have hs := step_gravity_only s0 (-9.81) dt jit i hi hnu haf hdrag hm
  obtain ⟨hsx, hsvx, hsy, hsvy⟩ := hs
  rw [hP] at hsx hsvx hsy hsvy
  rw [show s0.domainX = (100:ℝ) from rfl] at hsx hsvx
  rw [show s0.domainY = (100:ℝ) from rfl] at hsy hsvy
  have h₀x : (0:ℝ) < (initParticle 100 100 params.Rho0 (draws i)).x +
      (initParticle 100 100 params.Rho0 (draws i)).vx * dt +
      (initParticle 100 100 params.Rho0 (draws i)).vx * dt := hx0
  have h₁x : (initParticle 100 100 params.Rho0 (draws i)).x +
      (initParticle 100 100 params.Rho0 (draws i)).vx * dt +
      (initParticle 100 100 params.Rho0 (draws i)).vx * dt < 100 := hx1
  have h₀y : (0:ℝ) < (initParticle 100 100 params.Rho0 (draws i)).y +
      (initParticle 100 100 params.Rho0 (draws i)).vy * dt +
      ((initParticle 100 100 params.Rho0 (draws i)).vy +
        (-9.81) * dt) * dt := hy0
  have h₁y : (initParticle 100 100 params.Rho0 (draws i)).y +
      (initParticle 100 100 params.Rho0 (draws i)).vy * dt +
      ((initParticle 100 100 params.Rho0 (draws i)).vy +
        (-9.81) * dt) * dt < 100 := hy1
  rw [handleBoundary_interior _ _ _ _ _ h₀x h₁x] at hsx hsvx
  rw [handleBoundary_interior _ _ _ _ _ h₀y h₁y] at hsy hsvy
  refine ⟨?_, ?_, ?_⟩
  · rw [hsvy]
    rfl
  · rw [hsvx]
    rfl
  · intro j hj
    have hb := step_positions_bounded s0 (-9.81) 0 dt jit j
      (by rw [hs0, newFluidSim_length]; exact hj)
      (by rw [show s0.domainX = (100:ℝ) from rfl]; norm_num)
      (by rw [show s0.domainY = (100:ℝ) from rfl]; norm_num)
    rw [show s0.domainX = (100:ℝ) from rfl,
      show s0.domainY = (100:ℝ) from rfl] at hb
    exact hb

/-- C6 (witness): the amended step theorem applied to the constant draw
stream: the particle at (50, 50) with initial vertical jitter 0.05 ends one
`dt = 0.0008` gravity-only step with `vy = 0.05 − 9.81·0.0008` exactly. -/
theorem C6_gravity_step_witness :
    (0:ℕ) < 100 ∧
    ((Step (NewFluidSim 100 100 100 C6params C6draws) (-9.81) 0 0.0008
        C6jit).particles.getD 0 default).vy =
      ((C6draws 0).2.2.2.1 * 0.2 - 0.1) + (-9.81) * 0.0008 :=
  ⟨by norm_num,
    (C6_gravity_step C6params 100 C6draws 0.0008 C6jit 0 (by norm_num)
      rfl rfl rfl rfl (by norm_num [C6draws])
      (by norm_num [C6draws]) (by norm_num [C6draws])
      (by norm_num [C6draws]) (by norm_num [C6draws])).1⟩

end Fluids
